import Mathlib

/-!
The parser and the process orchestration of cubsh (`src/cubsh.c`).

A shallow embedding of `parse_command`, `check_exit_inputs`, `exec_command`,
`exec_piped_command` and one pass of the body of `shell_loop`.

Conventions.
* A C string is the list of its characters before the terminating NUL; a buffer
  filled by `getline` may hold NUL characters, and `c_string` cuts it at the
  first one, as `strlen` and the other string functions do.
* `args_list` and `piped_args_list` are arrays of `MAX_COMMAND_ARGS` cells, each
  holding a token pointer (`some tok`) or `NULL` (`none`).  A store outside the
  cells is undefined behaviour in C and is a `Fault` here.
* `strtok` keeps its position in hidden static storage; here the saved position
  is the unscanned remainder of the buffer, returned next to the token.
* System calls whose result the program cannot predict (`fork`, `pipe`,
  `execvp`) take their result as an argument, and a run of a launcher is the
  list of calls the running process makes.
-/

namespace Cubsh

/-! ## Constants -/

def PROMPT : String := "cubsh $ "

def GOODBYE : String := "Goodbye. Thanks for using cubsh."

def MAX_COMMAND_ARGS : Nat := 10

def STDIN_FILENO : Int := 0

def STDOUT_FILENO : Int := 1

def EXIT_SUCCESS : Int := 0

/-- A token: the characters of one `strtok` result. -/
abbrev Token := List Char

/-! ## libc string functions -/

/-- The sign of `strcmp(a, b)`: zero exactly when the strings agree, otherwise
the sign of the difference at the first position where they differ (the end of
a string counts as the NUL character). -/
def strcmp : List Char → List Char → Int
  | [], [] => 0
  | [], _ :: _ => -1
  | _ :: _, [] => 1
  | a :: as, b :: bs =>
    if a = b then strcmp as bs else if a.toNat < b.toNat then -1 else 1

/-- The NUL character, which ends a C string. -/
def NUL : Char := Char.ofNat 0

/-- The C string held in a buffer: its characters before the first NUL. -/
def c_string (buf : List Char) : List Char :=
  buf.takeWhile (fun c => c ≠ NUL)

/-- The function `strlen` on a buffer. -/
def strlen (buf : List Char) : Nat := (c_string buf).length

/-- One call of `strtok` on the unscanned text `s`: skip the leading delimiter
characters; when nothing is left return `NULL` (`none`); otherwise the token
runs up to the next delimiter, that delimiter is overwritten by NUL, and the
saved position is the text after it. -/
def strtok (s delim : List Char) : Option (Token × List Char) :=
  match s.dropWhile (fun c => delim.contains c) with
  | [] => none
  | c :: cs =>
    some ((c :: cs).takeWhile (fun x => !delim.contains x),
          ((c :: cs).dropWhile (fun x => !delim.contains x)).drop 1)

/-! ## Argument arrays -/

/-- An array `char *a[MAX_COMMAND_ARGS]`. -/
structure ArgArray where
  cells : List (Option Token)
  size_eq : cells.length = MAX_COMMAND_ARGS
  deriving DecidableEq

/-- An array whose cells are all `NULL`. -/
def ArgArray.blank : ArgArray := ⟨List.replicate MAX_COMMAND_ARGS none, by simp⟩

/-- The store `a[i] = v`; `none` when `i` is not the index of a cell. -/
def ArgArray.store (a : ArgArray) (i : Int) (v : Option Token) : Option ArgArray :=
  if 0 ≤ i ∧ i < (MAX_COMMAND_ARGS : Int) then
    some ⟨a.cells.set i.toNat v, by rw [List.length_set]; exact a.size_eq⟩
  else none

/-- The argument vector a callee such as `execvp` reads from `a`: the cells
before the first `NULL`. -/
def ArgArray.argv (a : ArgArray) : List Token :=
  (a.cells.takeWhile Option.isSome).filterMap id

/-! ## parse_command -/

inductive ArrayId
  | args_list
  | piped_args_list
  deriving DecidableEq, Repr

/-- Ways a run of the model stops without a C-defined result. -/
inductive Fault
  | out_of_bounds (arr : ArrayId) (i : Int)
  | out_of_fuel
  | command_out_of_bounds (i : Int)
  deriving DecidableEq, Repr

/-- The variables of `parse_command`, the record of the stores made so far and
the text printed so far. -/
structure ParseState where
  args_list : ArgArray
  piped_args_list : ArgArray
  is_piped : Int
  index : Int
  piped_args_index : Int
  pipe_cnt : Int
  stores : List (ArrayId × Int)
  stdout : List String

/-- Lines 38-42: store the token into the array selected by `*is_piped` and
advance that array's index. -/
def store_token (token : Token) (st : ParseState) : Except Fault ParseState :=
  if st.is_piped ≠ 0 then
    match st.piped_args_list.store st.piped_args_index (some token) with
    | none => .error (.out_of_bounds .piped_args_list st.piped_args_index)
    | some p =>
      .ok { st with
            piped_args_list := p
            piped_args_index := st.piped_args_index + 1
            stores := st.stores ++ [(.piped_args_list, st.piped_args_index)] }
  else
    match st.args_list.store st.index (some token) with
    | none => .error (.out_of_bounds .args_list st.index)
    | some a =>
      .ok { st with
            args_list := a
            index := st.index + 1
            stores := st.stores ++ [(.args_list, st.index)] }

/-- Lines 43-51: on a pipe token set the flag, count the pipe and step `index`
back by one. -/
def note_pipe (token : Token) (st : ParseState) : ParseState :=
  if strcmp token ['|'] = 0 then
    { st with is_piped := 1, pipe_cnt := st.pipe_cnt + 1, index := st.index - 1 }
  else st

/-- Lines 37-56, the `while` loop.  The second argument is the value of `token`
at the loop test together with the saved `strtok` position. -/
def parse_loop : Nat → Option (Token × List Char) → ParseState → Except Fault ParseState
  | _, none, st => .ok st
  | 0, some _, _ => .error .out_of_fuel
  | n + 1, some (token, save), st =>
    match store_token token st with
    | .error e => .error e
    | .ok st1 =>
      let st2 := note_pipe token st1
      let next := strtok save [' ']
      if st2.pipe_cnt > 1 then .ok st2 else parse_loop n next st2

/-- What `parse_command` leaves behind: its return value, the two arrays, the
flag `*is_piped`, the text printed and the record of the stores made. -/
structure ParseResult where
  ret : Int
  args_list : ArgArray
  piped_args_list : ArgArray
  is_piped : Int
  stores : List (ArrayId × Int)
  stdout : List String
  deriving DecidableEq

/-- Lines 58-66: the code after the loop. -/
def parse_finish (st : ParseState) : Except Fault ParseResult :=
  if st.pipe_cnt > 1 then
    .ok { ret := 1, args_list := st.args_list, piped_args_list := st.piped_args_list,
          is_piped := st.is_piped, stores := st.stores,
          stdout := st.stdout ++ ["cubsh ~> max supported pipe count is 1\n"] }
  else
    match st.args_list.store st.index none with
    | none => .error (.out_of_bounds .args_list st.index)
    | some a =>
      match st.piped_args_list.store st.piped_args_index none with
      | none => .error (.out_of_bounds .piped_args_list st.piped_args_index)
      | some p =>
        .ok { ret := 0, args_list := a, piped_args_list := p, is_piped := st.is_piped,
              stores := st.stores ++
                [(.args_list, st.index), (.piped_args_list, st.piped_args_index)],
              stdout := st.stdout }

/-- The function `parse_command(&command, args_list, piped_args_list, &is_piped)`,
lines 29-67.  The loop runs at most once per character of the line, so the
fuel `command.length` is never used up. -/
def parse_command (command : List Char) (args_list piped_args_list : ArgArray)
    (is_piped : Int) : Except Fault ParseResult :=
  let st0 : ParseState :=
    { args_list := args_list, piped_args_list := piped_args_list, is_piped := is_piped,
      index := 0, piped_args_index := 0, pipe_cnt := 0, stores := [], stdout := [] }
  match parse_loop command.length (strtok command [' ']) st0 with
  | .error e => .error e
  | .ok st => parse_finish st

/-! ## check_exit_inputs -/

/-- The function `check_exit_inputs`, lines 144-154. -/
def check_exit_inputs (command : List Char) : Int :=
  if strcmp command "quit".toList = 0 ∨
     strcmp command "quit()".toList = 0 ∨
     strcmp command "exit".toList = 0 ∨
     strcmp command "exit()".toList = 0 ∨
     strcmp command "q".toList = 0 then 0
  else 1

/-! ## Launchers -/

/-- A call made by the running process, with its result where the program looks
at it. -/
inductive Event
  | printf (text : String)
  | perror (msg : String)
  | fork (ret : Int)
  | pipe (ret fds0 fds1 : Int)
  | close (fd : Int)
  | dup2 (oldfd newfd : Int)
  | execvp (file : Option Token) (argv : List Token)
  | wait
  deriving DecidableEq, Repr

/-- How a launcher ends in the running process: it returns to its caller, or a
successful `execvp` has replaced the process image and nothing of the program
runs any more. -/
inductive Control
  | returned
  | replaced
  deriving DecidableEq, Repr

/-- The cell `a[0]`. -/
def ArgArray.first (a : ArgArray) : Option Token := a.cells.headD none

/-- The function `exec_command`, lines 69-88, as run by the process in which
`fork` returns `pid`; `execvp_fails` tells whether `execvp`, if called,
returns (with -1) instead of replacing the image. -/
def exec_command (args_list : ArgArray) (pid : Int) (execvp_fails : Bool) :
    List Event × Control :=
  if pid = -1 then
    ([.fork pid, .perror "cubsh (fork failure)"], .returned)
  else if pid ≠ 0 then
    ([.fork pid, .wait], .returned)
  else if execvp_fails then
    ([.fork pid, .execvp args_list.first args_list.argv, .perror "cubsh (execve failed)"],
     .returned)
  else
    ([.fork pid, .execvp args_list.first args_list.argv], .replaced)

/-- The function `exec_piped_command`, lines 90-142, as run by the process in
which `pipe` returns `pipe_ret` after filling `fds` with `fds0`, `fds1`, the
first `fork` returns `command_pid` and the second returns `piped_command_pid`. -/
def exec_piped_command (args_list piped_args_list : ArgArray)
    (pipe_ret fds0 fds1 command_pid piped_command_pid : Int) (execvp_fails : Bool) :
    List Event × Control :=
  if pipe_ret < 0 then
    ([.pipe pipe_ret fds0 fds1, .perror "cubsh (pipe failed)"], .returned)
  else if command_pid < 0 then
    ([.pipe pipe_ret fds0 fds1, .fork command_pid, .perror "cubsh (fork failed)"], .returned)
  else if command_pid = 0 then
    let calls : List Event :=
      [.pipe pipe_ret fds0 fds1, .fork command_pid,
       .close fds0, .dup2 fds1 STDOUT_FILENO, .close fds1,
       .execvp args_list.first args_list.argv]
    if execvp_fails then
      (calls ++ [.perror "cubsh (execve failed - first command)"], .returned)
    else (calls, .replaced)
  else if piped_command_pid < 0 then
    ([.pipe pipe_ret fds0 fds1, .fork command_pid, .fork piped_command_pid,
      .perror "cubsh (fork failed)"], .returned)
  else if piped_command_pid = 0 then
    let calls : List Event :=
      [.pipe pipe_ret fds0 fds1, .fork command_pid, .fork piped_command_pid,
       .close fds1, .dup2 fds0 STDIN_FILENO, .close fds0,
       .execvp piped_args_list.first piped_args_list.argv]
    if execvp_fails then
      (calls ++ [.perror "cubsh (execve failed - piped command)"], .returned)
    else (calls, .replaced)
  else
    ([.pipe pipe_ret fds0 fds1, .fork command_pid, .fork piped_command_pid,
      .close fds0, .close fds1, .wait, .wait], .returned)

/-! ## Descriptor tables -/

/-- What a descriptor of the running process refers to: something the shell
already had open, or an end of the pipe made by `exec_piped_command`. -/
inductive Desc
  | inherited (fd : Int)
  | pipe_read
  | pipe_write
  deriving DecidableEq, Repr

/-- The descriptor table of a process. -/
abbrev FdTable := Int → Option Desc

/-- The table of the shell before a command: the descriptors in `opened`. -/
def FdTable.initial (opened : Int → Bool) : FdTable :=
  fun fd => if opened fd then some (.inherited fd) else none

/-- The effect of one call on the table of the process making it.  A child
starts with a copy of its parent's table, so `fork` leaves the table as it is. -/
def FdTable.step (t : FdTable) : Event → FdTable
  | .pipe ret fds0 fds1 =>
    if ret < 0 then t
    else Function.update (Function.update t fds0 (some .pipe_read)) fds1 (some .pipe_write)
  | .close fd => Function.update t fd none
  | .dup2 oldfd newfd => if t oldfd = none then t else Function.update t newfd (t oldfd)
  | _ => t

/-- The table after a list of calls. -/
def FdTable.after (t : FdTable) (calls : List Event) : FdTable :=
  calls.foldl FdTable.step t

/-! ## shell_loop -/

/-- What one pass of the loop body decides to do with the line. -/
inductive Action
  | goodbye
  | skip
  | call_exec_command (args_list : ArgArray)
  | call_exec_piped_command (args_list piped_args_list : ArgArray)
  | undefined (f : Fault)
  deriving DecidableEq

/-- One pass of the body of `while(1)` in `shell_loop`, lines 165-211, up to the
choice of launcher.  `input` is what `getline` delivered: `none` for the result
-1, otherwise the characters read, the newline included.  Line 193 writes a NUL
over the character at `strlen(command) - 1`, so the command is the C string of
the buffer without its last character; when that C string is empty the write
goes to `command[-1]`, outside the buffer.  The arrays are given as they are
when `parse_command` is called.  `goodbye` stands for printing the farewell and
`exit (EXIT_SUCCESS)`, `skip` for `continue`. -/
def shell_dispatch (input : Option (List Char)) (args_list piped_args_list : ArgArray) :
    List String × Action :=
  match input with
  | none => ([PROMPT, "\n" ++ GOODBYE ++ "\n"], .goodbye)
  | some buf =>
    if buf.length = 0 then ([PROMPT], .skip)
    else if strlen buf = 0 then ([PROMPT], .undefined (.command_out_of_bounds (-1)))
    else
      let command := (c_string buf).dropLast
      if check_exit_inputs command = 0 then ([PROMPT, "\n" ++ GOODBYE ++ "\n"], .goodbye)
      else
        match parse_command command args_list piped_args_list 0 with
        | .error f => ([PROMPT], .undefined f)
        | .ok r =>
          if r.ret ≠ 0 then (PROMPT :: r.stdout, .skip)
          else if r.is_piped = 0 then (PROMPT :: r.stdout, .call_exec_command r.args_list)
          else (PROMPT :: r.stdout,
                .call_exec_piped_command r.args_list r.piped_args_list)

/-- Where the running process is after one pass of the loop body. -/
inductive LoopStep
  | exited (status : Int)
  | at_prompt
  | replaced
  | undefined (f : Fault)
  deriving DecidableEq, Repr

/-- Where the process is after a launcher: a launcher that returns leads to
`free(command)` and the next pass of the loop. -/
def LoopStep.after_launcher : Control → LoopStep
  | .returned => .at_prompt
  | .replaced => .replaced

/-- The results of the system calls one pass of the loop body may make. -/
structure Os where
  fork_ret : Int
  fork_ret2 : Int
  pipe_ret : Int
  fds0 : Int
  fds1 : Int
  execvp_fails : Bool

/-- One full pass of the body of `while(1)`, launcher included: the calls made
by the running process and where it is afterwards.  A launcher that returns
leads to `free(command)` and the next pass, that is, to the prompt. -/
def shell_iteration (os : Os) (input : Option (List Char))
    (args_list piped_args_list : ArgArray) : List Event × LoopStep :=
  match shell_dispatch input args_list piped_args_list with
  | (out, .goodbye) => (out.map Event.printf, .exited EXIT_SUCCESS)
  | (out, .skip) => (out.map Event.printf, .at_prompt)
  | (out, .undefined f) => (out.map Event.printf, .undefined f)
  | (out, .call_exec_command a) =>
    match exec_command a os.fork_ret os.execvp_fails with
    | (calls, .returned) => (out.map Event.printf ++ calls, .at_prompt)
    | (calls, .replaced) => (out.map Event.printf ++ calls, .replaced)
  | (out, .call_exec_piped_command a p) =>
    match exec_piped_command a p os.pipe_ret os.fds0 os.fds1 os.fork_ret os.fork_ret2
        os.execvp_fails with
    | (calls, .returned) => (out.map Event.printf ++ calls, .at_prompt)
    | (calls, .replaced) => (out.map Event.printf ++ calls, .replaced)

/-! ## Reference notions from the specification -/

/-- The pipe symbol as a token. -/
def pipe_token : Token := ['|']

/-- Follows the spec's words: the maximal runs of characters of the line that
are not the space character. -/
def space_runs (line : List Char) : List Token :=
  (line.splitOnP (fun c => c == ' ')).filter (fun t => !t.isEmpty)

/-- Follows the spec's words: the tokens before the first pipe token (all of
them when there is none). -/
def before_pipe (toks : List Token) : List Token :=
  toks.takeWhile (fun t => t ≠ pipe_token)

/-- Follows the spec's words: the tokens after the first pipe token (none when
there is no pipe token). -/
def after_pipe (toks : List Token) : List Token :=
  (toks.dropWhile (fun t => t ≠ pipe_token)).drop 1

/-- Follows the spec's words: the exit literals. -/
def exit_literals : List (List Char) :=
  ["quit".toList, "quit()".toList, "exit".toList, "exit()".toList, "q".toList]

/-- The loop of `parse_command` run over tokens given in advance: the same body
and the same `break` as `parse_loop`, with the tokens listed instead of being
cut from the line one `strtok` call at a time.  Used to reason about
`parse_loop`, to which it is proved equal. -/
def parse_tokens : List Token → ParseState → Except Fault ParseState
  | [], st => .ok st
  | token :: rest, st =>
    match store_token token st with
    | .error e => .error e
    | .ok st1 =>
      if (note_pipe token st1).pipe_cnt > 1 then .ok (note_pipe token st1)
      else parse_tokens rest (note_pipe token st1)

/-- The variables of `parse_command` on entry to the loop. -/
def entry_state (args_list piped_args_list : ArgArray) (is_piped : Int) : ParseState :=
  { args_list := args_list, piped_args_list := piped_args_list, is_piped := is_piped,
    index := 0, piped_args_index := 0, pipe_cnt := 0, stores := [], stdout := [] }

/-- The function `parse_command` with the loop run over tokens given in advance.
Used to reason about `parse_command`, which is proved equal to it on the runs of
the line. -/
def parse_token_list (toks : List Token) (args_list piped_args_list : ArgArray)
    (is_piped : Int) : Except Fault ParseResult :=
  match parse_tokens toks (entry_state args_list piped_args_list is_piped) with
  | .error e => .error e
  | .ok st => parse_finish st

/-- Follows the spec's words: the stores `parse_command` is said to make, in
order, for a line with these tokens: one per token of the first stage, the
transient store of the pipe token, one per token of the second stage, then
either the store of a second pipe token or the two `NULL` end markers. -/
def expected_stores (toks : List Token) : List (ArrayId × Int) :=
  let n := (before_pipe toks).length
  let m := (before_pipe (after_pipe toks)).length
  let first := (List.range n).map (fun (i : Nat) => (ArrayId.args_list, (i : Int)))
  let second := (List.range m).map (fun (i : Nat) => (ArrayId.piped_args_list, (i : Int)))
  if pipe_token ∉ toks then
    first ++ [(.args_list, (n : Int)), (.piped_args_list, 0)]
  else if pipe_token ∉ after_pipe toks then
    first ++ [(.args_list, (n : Int))] ++ second ++
      [(.args_list, (n : Int)), (.piped_args_list, (m : Int))]
  else
    first ++ [(.args_list, (n : Int))] ++ second ++ [(.piped_args_list, (m : Int))]

/-! ## Facts about the string functions -/

theorem strcmp_eq_zero_iff (a b : List Char) : strcmp a b = 0 ↔ a = b := by
  induction a generalizing b with
  | nil => cases b <;> simp [strcmp]
  | cons x xs ih =>
    cases b with
    | nil => simp [strcmp]
    | cons y ys =>
      by_cases hxy : x = y
      · simp [strcmp, hxy, ih]
      · by_cases hlt : x.toNat < y.toNat <;> simp [strcmp, hxy, hlt]

theorem splitOnP_takeWhile (p : Char → Bool) (s : List Char) :
    s.splitOnP p = s.takeWhile (fun x => !p x) ::
      (if s.dropWhile (fun x => !p x) = [] then []
       else ((s.dropWhile (fun x => !p x)).drop 1).splitOnP p) := by
  induction s with
  | nil => simp
  | cons x xs ih =>
    by_cases hx : p x
    · simp [List.splitOnP_cons, hx, List.takeWhile, List.dropWhile]
    · simp only [List.splitOnP_cons, hx, List.takeWhile, List.dropWhile]
      rw [ih]
      simp [List.modifyHead]

theorem runs_dropWhile (p : Char → Bool) (s : List Char) :
    (s.splitOnP p).filter (fun t => !t.isEmpty) =
      ((s.dropWhile p).splitOnP p).filter (fun t => !t.isEmpty) := by
  induction s with
  | nil => simp
  | cons x xs ih =>
    by_cases hx : p x
    · simp [List.splitOnP_cons, hx, List.dropWhile, ih]
    · simp [List.dropWhile, hx]

theorem runs_cons (p : Char → Bool) (c : Char) (cs : List Char) (hc : p c = false) :
    ((c :: cs).splitOnP p).filter (fun t => !t.isEmpty) =
      (c :: cs).takeWhile (fun x => !p x) ::
        ((((c :: cs).dropWhile (fun x => !p x)).drop 1).splitOnP p).filter
          (fun t => !t.isEmpty) := by
  rw [splitOnP_takeWhile p (c :: cs)]
  have h1 : (c :: cs).takeWhile (fun x => !p x) = c :: cs.takeWhile (fun x => !p x) := by
    simp [List.takeWhile, hc]
  by_cases hd : (c :: cs).dropWhile (fun x => !p x) = []
  · simp [hd, h1]
  · simp [hd, h1]

theorem contains_space (c : Char) : [' '].contains c = (c == ' ') := by
  by_cases h : c = ' ' <;> simp [h]

/-- One `strtok` call against the runs of the text: `NULL` when there is no run,
otherwise the first run, with the other runs left in the saved position, which
is shorter than the text scanned. -/
theorem strtok_space_runs (s : List Char) :
    match strtok s [' '] with
    | none => space_runs s = []
    | some (t, r) => space_runs s = t :: space_runs r ∧ r.length < s.length := by
  unfold strtok space_runs
  simp only [contains_space]
  rw [runs_dropWhile (fun c => c == ' ') s]
  have hlen := (List.dropWhile_sublist (fun c : Char => c == ' ') (l := s)).length_le
  cases hd : s.dropWhile (fun c => c == ' ') with
  | nil => simp
  | cons c cs =>
    have hc : (fun c : Char => c == ' ') c = false := by
      have := List.head_dropWhile_not (fun c : Char => c == ' ') s (by simp [hd])
      simpa [hd] using this
    refine ⟨runs_cons _ c cs hc, ?_⟩
    have h2 := (List.dropWhile_sublist (fun x : Char => !(x == ' ')) (l := c :: cs)).length_le
    rw [hd] at hlen
    simp only [List.length_drop, List.length_cons] at *
    omega

/-- The loop fed by `strtok` does what the loop over the runs of the line does,
and never runs out of fuel. -/
theorem parse_loop_runs (n : Nat) (s : List Char) (st : ParseState) (h : s.length ≤ n) :
    parse_loop n (strtok s [' ']) st = parse_tokens (space_runs s) st := by
  induction n generalizing s st with
  | zero =>
    have hs : s = [] := List.length_eq_zero.mp (Nat.le_zero.mp h)
    subst hs
    simp [strtok, parse_loop, space_runs, parse_tokens]
  | succ n ih =>
    have hk := strtok_space_runs s
    cases hst : strtok s [' '] with
    | none =>
      rw [hst] at hk
      simp [parse_loop, hk, parse_tokens]
    | some tr =>
      obtain ⟨t, r⟩ := tr
      rw [hst] at hk
      rw [hk.1]
      simp only [parse_loop, parse_tokens]
      cases hs : store_token t st with
      | error e => rfl
      | ok st1 =>
        simp only []
        rw [ih r _ (by omega)]

theorem parse_command_runs (line : List Char) (a p : ArgArray) (f : Int) :
    parse_command line a p f = parse_token_list (space_runs line) a p f := by
  unfold parse_command parse_token_list entry_state
  simp only []
  rw [parse_loop_runs _ _ _ (Nat.le_refl _)]

/-! ## Facts about the argument arrays and the loop body -/

theorem store_split (a : ArgArray) (pre suf : List (Option Token)) (x v : Option Token)
    (h : a.cells = pre ++ x :: suf) :
    ∃ b, a.store (pre.length : Int) v = some b ∧ b.cells = pre ++ v :: suf := by
  have hlen : pre.length < MAX_COMMAND_ARGS := by
    have := a.size_eq
    rw [h] at this
    simp only [List.length_append, List.length_cons] at this
    omega
  unfold ArgArray.store
  have hc : 0 ≤ (pre.length : Int) ∧ (pre.length : Int) < (MAX_COMMAND_ARGS : Int) :=
    ⟨Int.natCast_nonneg _, by exact_mod_cast hlen⟩
  rw [if_pos hc]
  refine ⟨_, rfl, ?_⟩
  simp [h]

theorem store_in_range (a b : ArgArray) (i : Int) (v : Option Token)
    (h : a.store i v = some b) : 0 ≤ i ∧ i < (MAX_COMMAND_ARGS : Int) := by
  unfold ArgArray.store at h
  by_cases hc : 0 ≤ i ∧ i < (MAX_COMMAND_ARGS : Int)
  · exact hc
  · rw [if_neg hc] at h
    cases h

theorem argv_split (a : ArgArray) (ts : List Token) (suf : List (Option Token))
    (h : a.cells = ts.map some ++ none :: suf) : a.argv = ts := by
  unfold ArgArray.argv
  rw [h]
  have h1 : ∀ us : List Token,
      (us.map some ++ none :: suf).takeWhile Option.isSome = us.map some := by
    intro us
    induction us with
    | nil => simp [List.takeWhile]
    | cons u us ih => simp [List.takeWhile, ih]
  rw [h1]
  induction ts with
  | nil => rfl
  | cons t ts ih => simp

theorem note_pipe_plain (t : Token) (st : ParseState) (h : t ≠ pipe_token) :
    note_pipe t st = st := by
  unfold note_pipe
  rw [if_neg]
  rw [strcmp_eq_zero_iff]
  exact h

theorem note_pipe_pipe (st : ParseState) :
    note_pipe pipe_token st =
      { st with is_piped := 1, pipe_cnt := st.pipe_cnt + 1, index := st.index - 1 } := by
  unfold note_pipe
  rw [if_pos]
  rw [strcmp_eq_zero_iff]
  rfl

theorem store_token_args (t : Token) (st : ParseState) (pre suf : List (Option Token))
    (x : Option Token) (hp : st.is_piped = 0) (hc : st.args_list.cells = pre ++ x :: suf)
    (hi : st.index = pre.length) :
    ∃ b, b.cells = pre ++ some t :: suf ∧
      store_token t st = .ok { st with
        args_list := b
        index := st.index + 1
        stores := st.stores ++ [(.args_list, st.index)] } := by
  obtain ⟨b, hb, hcells⟩ := store_split st.args_list pre suf x (some t) hc
  refine ⟨b, hcells, ?_⟩
  unfold store_token
  rw [if_neg (by simp [hp]), hi, hb]

theorem store_token_piped (t : Token) (st : ParseState) (pre suf : List (Option Token))
    (x : Option Token) (hp : st.is_piped ≠ 0)
    (hc : st.piped_args_list.cells = pre ++ x :: suf)
    (hi : st.piped_args_index = pre.length) :
    ∃ b, b.cells = pre ++ some t :: suf ∧
      store_token t st = .ok { st with
        piped_args_list := b
        piped_args_index := st.piped_args_index + 1
        stores := st.stores ++ [(.piped_args_list, st.piped_args_index)] } := by
  obtain ⟨b, hb, hcells⟩ := store_split st.piped_args_list pre suf x (some t) hc
  refine ⟨b, hcells, ?_⟩
  unfold store_token
  rw [if_pos hp, hi, hb]

theorem range_shift (n k : Nat) (arr : ArrayId) :
    (arr, ((k : Nat) : Int)) ::
        (List.range n).map (fun i => (arr, (((k + 1 + i : Nat)) : Int))) =
      (List.range (n + 1)).map (fun i => (arr, (((k + i : Nat)) : Int))) := by
  rw [List.range_succ_eq_map]
  simp only [List.map_cons, List.map_map, Nat.add_zero]
  congr 1
  apply List.map_congr_left
  intro i _
  simp only [Function.comp]
  congr 2
  omega

/-- A run of tokens none of which is the pipe token, met while `*is_piped` is 0:
they go into `args_list` one cell after the other, and nothing else changes. -/
theorem plain_run_args (ts : List Token) :
    ∀ (st : ParseState) (pre suf : List (Option Token)),
      st.is_piped = 0 → st.pipe_cnt ≤ 1 → (∀ t ∈ ts, t ≠ pipe_token) →
      st.args_list.cells = pre ++ suf → st.index = pre.length → ts.length ≤ suf.length →
      ∃ st1, (∀ ys, parse_tokens (ts ++ ys) st = parse_tokens ys st1) ∧
        st1.is_piped = 0 ∧ st1.pipe_cnt = st.pipe_cnt ∧
        st1.index = (pre.length + ts.length : Nat) ∧
        st1.args_list.cells = pre ++ ts.map some ++ suf.drop ts.length ∧
        st1.piped_args_list = st.piped_args_list ∧
        st1.piped_args_index = st.piped_args_index ∧
        st1.stdout = st.stdout ∧
        st1.stores = st.stores ++ (List.range ts.length).map
          (fun i => (ArrayId.args_list, ((pre.length + i : Nat) : Int))) := by
  induction ts with
  | nil =>
    intro st pre suf hp _ _ hc hi _
    exact ⟨st, fun _ => rfl, hp, rfl, by simpa using hi, by simpa using hc, rfl, rfl, rfl,
      by simp⟩
  | cons t ts ih =>
    intro st pre suf hp hcnt hplain hc hi hlen
    cases suf with
    | nil => simp at hlen
    | cons x suf =>
      obtain ⟨b, hb, hstore⟩ := store_token_args t st pre suf x hp hc hi
      have ht : t ≠ pipe_token := hplain t (List.mem_cons_self _ _)
      obtain ⟨st1, hrun, h1, h2, h3, h4, h5, h6, h7, h8⟩ :=
        ih { st with
             args_list := b
             index := st.index + 1
             stores := st.stores ++ [(.args_list, st.index)] }
          (pre ++ [some t]) suf hp hcnt
          (fun u hu => hplain u (List.mem_cons_of_mem _ hu))
          (by simp [hb]) (by simp [hi])
          (by simpa using hlen)
      refine ⟨st1, ?_, h1, h2, ?_, ?_, h5, h6, h7, ?_⟩
      · intro ys
        simp only [List.cons_append, parse_tokens]
        rw [hstore]
        simp only [note_pipe_plain _ _ ht]
        rw [if_neg (by simp only [gt_iff_lt, not_lt]; exact hcnt)]
        exact hrun ys
      · rw [h3]; simp; omega
      · rw [h4]; simp
      · rw [h8]
        simp only [List.length_append, List.length_singleton, List.length_cons,
          List.append_assoc, List.singleton_append, hi, List.length_nil, Nat.zero_add]
        rw [range_shift]

/-- A run of tokens none of which is the pipe token, met while `*is_piped` is
set: they go into `piped_args_list`, and nothing else changes. -/
theorem plain_run_piped (ts : List Token) :
    ∀ (st : ParseState) (pre suf : List (Option Token)),
      st.is_piped ≠ 0 → st.pipe_cnt ≤ 1 → (∀ t ∈ ts, t ≠ pipe_token) →
      st.piped_args_list.cells = pre ++ suf → st.piped_args_index = pre.length →
      ts.length ≤ suf.length →
      ∃ st1, (∀ ys, parse_tokens (ts ++ ys) st = parse_tokens ys st1) ∧
        st1.is_piped = st.is_piped ∧ st1.pipe_cnt = st.pipe_cnt ∧
        st1.piped_args_index = (pre.length + ts.length : Nat) ∧
        st1.piped_args_list.cells = pre ++ ts.map some ++ suf.drop ts.length ∧
        st1.args_list = st.args_list ∧
        st1.index = st.index ∧
        st1.stdout = st.stdout ∧
        st1.stores = st.stores ++ (List.range ts.length).map
          (fun i => (ArrayId.piped_args_list, ((pre.length + i : Nat) : Int))) := by
  induction ts with
  | nil =>
    intro st pre suf _ _ _ hc hi _
    exact ⟨st, fun _ => rfl, rfl, rfl, by simpa using hi, by simpa using hc, rfl, rfl, rfl,
      by simp⟩
  | cons t ts ih =>
    intro st pre suf hp hcnt hplain hc hi hlen
    cases suf with
    | nil => simp at hlen
    | cons x suf =>
      obtain ⟨b, hb, hstore⟩ := store_token_piped t st pre suf x hp hc hi
      have ht : t ≠ pipe_token := hplain t (List.mem_cons_self _ _)
      obtain ⟨st1, hrun, h1, h2, h3, h4, h5, h6, h7, h8⟩ :=
        ih { st with
             piped_args_list := b
             piped_args_index := st.piped_args_index + 1
             stores := st.stores ++ [(.piped_args_list, st.piped_args_index)] }
          (pre ++ [some t]) suf hp hcnt
          (fun u hu => hplain u (List.mem_cons_of_mem _ hu))
          (by simp [hb]) (by simp [hi])
          (by simpa using hlen)
      refine ⟨st1, ?_, h1, h2, ?_, ?_, h5, h6, h7, ?_⟩
      · intro ys
        simp only [List.cons_append, parse_tokens]
        rw [hstore]
        simp only [note_pipe_plain _ _ ht]
        rw [if_neg (by simp only [gt_iff_lt, not_lt]; exact hcnt)]
        exact hrun ys
      · rw [h3]; simp; omega
      · rw [h4]; simp
      · rw [h8]
        simp only [List.length_append, List.length_singleton, List.length_cons,
          List.append_assoc, List.singleton_append, hi, List.length_nil, Nat.zero_add]
        rw [range_shift]

theorem drop_cons_of_lt {α : Type} (l : List α) (k : Nat) (h : k < l.length) :
    ∃ x rest, l.drop k = x :: rest := by
  cases hd : l.drop k with
  | nil =>
    have := congrArg List.length hd
    simp at this
    omega
  | cons x rest => exact ⟨x, rest, rfl⟩

theorem parse_finish_ok (st : ParseState) (pa sa pp sp : List (Option Token))
    (x y : Option Token) (hcnt : st.pipe_cnt ≤ 1)
    (ha : st.args_list.cells = pa ++ x :: sa) (hi : st.index = pa.length)
    (hp : st.piped_args_list.cells = pp ++ y :: sp) (hj : st.piped_args_index = pp.length) :
    ∃ r, parse_finish st = .ok r ∧ r.ret = 0 ∧ r.is_piped = st.is_piped ∧
      r.args_list.cells = pa ++ none :: sa ∧ r.piped_args_list.cells = pp ++ none :: sp ∧
      r.stdout = st.stdout ∧
      r.stores = st.stores ++
        [(.args_list, (pa.length : Int)), (.piped_args_list, (pp.length : Int))] := by
  obtain ⟨a1, hs1, hc1⟩ := store_split st.args_list pa sa x none ha
  obtain ⟨p1, hs2, hc2⟩ := store_split st.piped_args_list pp sp y none hp
  unfold parse_finish
  rw [if_neg (by simp only [gt_iff_lt, not_lt]; exact hcnt), hi, hs1, hj, hs2]
  exact ⟨_, rfl, rfl, rfl, hc1, hc2, rfl, rfl⟩

/-- The loop up to and including the first pipe token, when at most
`MAX_COMMAND_ARGS - 1` tokens come before it. -/
theorem through_first_pipe (A : List Token) (a p : ArgArray)
    (hA : ∀ t ∈ A, t ≠ pipe_token) (hlen : A.length < MAX_COMMAND_ARGS) :
    ∃ st1 rest, (∀ ys, parse_tokens (A ++ pipe_token :: ys) (entry_state a p 0) =
          parse_tokens ys st1) ∧
      st1.is_piped = 1 ∧ st1.pipe_cnt = 1 ∧ st1.index = (A.length : Nat) ∧
      st1.args_list.cells = A.map some ++ some pipe_token :: rest ∧
      st1.piped_args_list = p ∧ st1.piped_args_index = 0 ∧ st1.stdout = [] ∧
      st1.stores =
        (List.range A.length).map (fun (i : Nat) => (ArrayId.args_list, (i : Int))) ++
        [(.args_list, (A.length : Int))] := by
  obtain ⟨st1, hrun, h1, h2, h3, h4, h5, h6, h7, h8⟩ :=
    plain_run_args A (entry_state a p 0) [] a.cells rfl (by simp [entry_state]) hA
      (by simp [entry_state]) (by simp [entry_state])
      (by rw [a.size_eq]; exact Nat.le_of_lt hlen)
  obtain ⟨x, rest, hdrop⟩ := drop_cons_of_lt a.cells A.length (by rw [a.size_eq]; exact hlen)
  have hcells : st1.args_list.cells = A.map some ++ x :: rest := by
    rw [h4, hdrop]; simp
  have hidx : st1.index = ((A.map some).length : Nat) := by
    rw [h3]; simp
  obtain ⟨b, hb, hstore⟩ := store_token_args pipe_token st1 (A.map some) rest x h1 hcells hidx
  have hc0 : st1.pipe_cnt = 0 := by rw [h2]; rfl
  refine ⟨note_pipe pipe_token { st1 with
              args_list := b
              index := st1.index + 1
              stores := st1.stores ++ [(.args_list, st1.index)] },
    rest, ?_, ?_, ?_, ?_, ?_, ?_, ?_, ?_, ?_⟩
  · intro ys
    rw [hrun (pipe_token :: ys)]
    simp only [parse_tokens]
    rw [hstore]
    simp only []
    rw [if_neg (by simp [note_pipe_pipe, hc0])]
  · simp [note_pipe_pipe]
  · simp [note_pipe_pipe, hc0]
  · simp [note_pipe_pipe, h3]
  · simpa [note_pipe_pipe] using hb
  · simpa [note_pipe_pipe] using h5
  · simpa [note_pipe_pipe] using h6
  · simpa [note_pipe_pipe] using h7
  · simp only [List.length_nil, Nat.zero_add, entry_state, List.nil_append] at h8 h3
    rw [note_pipe_pipe]
    show st1.stores ++ [(ArrayId.args_list, st1.index)] = _
    rw [h8, h3]

/-- The stores into `args_list` for the tokens of a first stage. -/
theorem stage_stores_in_range (arr : ArrayId) (n : Nat) (h : n < MAX_COMMAND_ARGS) :
    ∀ s ∈ (List.range n).map (fun (i : Nat) => (arr, (i : Int))),
      0 ≤ s.2 ∧ s.2 < (MAX_COMMAND_ARGS : Int) := by
  intro s hs
  simp only [List.mem_map, List.mem_range] at hs
  obtain ⟨i, hi, rfl⟩ := hs
  refine ⟨Int.natCast_nonneg _, ?_⟩
  show (i : Int) < (MAX_COMMAND_ARGS : Int)
  exact_mod_cast Nat.lt_trans hi h

/-- A line without a pipe token whose tokens leave room for the end marker. -/
theorem shape_no_pipe (A : List Token) (a p : ArgArray)
    (hA : ∀ t ∈ A, t ≠ pipe_token) (hlen : A.length < MAX_COMMAND_ARGS) :
    ∃ r, parse_token_list A a p 0 = .ok r ∧ r.ret = 0 ∧ r.is_piped = 0 ∧
      r.args_list.argv = A ∧ r.piped_args_list.argv = [] ∧ r.stdout = [] ∧
      r.stores =
        (List.range A.length).map (fun (i : Nat) => (ArrayId.args_list, (i : Int))) ++
          [(.args_list, (A.length : Int)), (.piped_args_list, 0)] := by
  obtain ⟨st1, hrun, h1, h2, h3, h4, h5, h6, h7, h8⟩ :=
    plain_run_args A (entry_state a p 0) [] a.cells rfl (by simp [entry_state]) hA
      (by simp [entry_state]) (by simp [entry_state])
      (by rw [a.size_eq]; exact Nat.le_of_lt hlen)
  obtain ⟨x, rest, hdrop⟩ := drop_cons_of_lt a.cells A.length (by rw [a.size_eq]; exact hlen)
  obtain ⟨y, prest, hpdrop⟩ := drop_cons_of_lt p.cells 0 (by rw [p.size_eq]; decide)
  simp only [List.length_nil, Nat.zero_add, entry_state, List.nil_append] at h2 h3 h4 h5 h6 h7 h8
  obtain ⟨r, hr, r1, r2, r3, r4, r5, r6⟩ :=
    parse_finish_ok st1 (A.map some) rest [] prest x y (by rw [h2]; decide)
      (by rw [h4, hdrop]) (by rw [h3]; simp)
      (by rw [h5]; simpa using hpdrop) (by rw [h6]; simp)
  refine ⟨r, ?_, r1, by rw [r2, h1], argv_split _ _ _ r3, argv_split _ [] _ r4,
    by rw [r5, h7], ?_⟩
  · unfold parse_token_list
    have := hrun []
    rw [List.append_nil] at this
    rw [this]
    simpa [parse_tokens] using hr
  · rw [r6, h8]
    simp

/-- A line with one pipe token whose two stages leave room for the end
markers. -/
theorem shape_one_pipe (A B : List Token) (a p : ArgArray)
    (hA : ∀ t ∈ A, t ≠ pipe_token) (hB : ∀ t ∈ B, t ≠ pipe_token)
    (hlenA : A.length < MAX_COMMAND_ARGS) (hlenB : B.length < MAX_COMMAND_ARGS) :
    ∃ r, parse_token_list (A ++ pipe_token :: B) a p 0 = .ok r ∧ r.ret = 0 ∧
      r.is_piped = 1 ∧ r.args_list.argv = A ∧ r.piped_args_list.argv = B ∧ r.stdout = [] ∧
      r.stores =
        (List.range A.length).map (fun (i : Nat) => (ArrayId.args_list, (i : Int))) ++
          [(.args_list, (A.length : Int))] ++
        (List.range B.length).map (fun (i : Nat) => (ArrayId.piped_args_list, (i : Int))) ++
          [(.args_list, (A.length : Int)), (.piped_args_list, (B.length : Int))] := by
  obtain ⟨st1, rest, hrun1, h1, h2, h3, h4, h5, h6, h7, h8⟩ := through_first_pipe A a p hA hlenA
  obtain ⟨st2, hrun2, k1, k2, k3, k4, k5, k6, k7, k8⟩ :=
    plain_run_piped B st1 [] p.cells (by rw [h1]; decide) (by rw [h2]) hB
      (by rw [h5]; simp) (by rw [h6]; simp)
      (by rw [p.size_eq]; exact Nat.le_of_lt hlenB)
  obtain ⟨y, prest, hpdrop⟩ := drop_cons_of_lt p.cells B.length (by rw [p.size_eq]; exact hlenB)
  simp only [List.length_nil, Nat.zero_add, List.nil_append] at k3 k4 k8
  obtain ⟨r, hr, r1, r2, r3, r4, r5, r6⟩ :=
    parse_finish_ok st2 (A.map some) rest (B.map some) prest (some pipe_token) y
      (by rw [k2, h2]) (by rw [k5, h4]) (by rw [k6, h3]; simp)
      (by rw [k4, hpdrop]) (by rw [k3]; simp)
  refine ⟨r, ?_, r1, by rw [r2, k1, h1], argv_split _ _ _ r3, argv_split _ _ _ r4,
    by rw [r5, k7, h7], ?_⟩
  · unfold parse_token_list
    rw [hrun1 B]
    have := hrun2 []
    rw [List.append_nil] at this
    rw [this]
    simpa [parse_tokens] using hr
  · rw [r6, k8, h8]
    simp

/-- A line with two or more pipe tokens whose first two stages leave room for
the pipe tokens: the result is fixed by the tokens up to the second pipe. -/
theorem shape_two_pipes (A B : List Token) (a p : ArgArray)
    (hA : ∀ t ∈ A, t ≠ pipe_token) (hB : ∀ t ∈ B, t ≠ pipe_token)
    (hlenA : A.length < MAX_COMMAND_ARGS) (hlenB : B.length < MAX_COMMAND_ARGS) :
    ∃ r, (∀ C, parse_token_list (A ++ pipe_token :: (B ++ pipe_token :: C)) a p 0 = .ok r) ∧
      r.ret = 1 ∧ r.is_piped = 1 ∧
      r.stdout = ["cubsh ~> max supported pipe count is 1\n"] ∧
      r.stores =
        (List.range A.length).map (fun (i : Nat) => (ArrayId.args_list, (i : Int))) ++
          [(.args_list, (A.length : Int))] ++
        (List.range B.length).map (fun (i : Nat) => (ArrayId.piped_args_list, (i : Int))) ++
          [(.piped_args_list, (B.length : Int))] := by
  obtain ⟨st1, rest, hrun1, h1, h2, h3, h4, h5, h6, h7, h8⟩ := through_first_pipe A a p hA hlenA
  obtain ⟨st2, hrun2, k1, k2, k3, k4, k5, k6, k7, k8⟩ :=
    plain_run_piped B st1 [] p.cells (by rw [h1]; decide) (by rw [h2]) hB
      (by rw [h5]; simp) (by rw [h6]; simp)
      (by rw [p.size_eq]; exact Nat.le_of_lt hlenB)
  obtain ⟨y, prest, hpdrop⟩ := drop_cons_of_lt p.cells B.length (by rw [p.size_eq]; exact hlenB)
  simp only [List.length_nil, Nat.zero_add, List.nil_append] at k3 k4 k8
  obtain ⟨b, hb, hstore⟩ :=
    store_token_piped pipe_token st2 (B.map some) prest y (by rw [k1, h1]; decide)
      (by rw [k4, hpdrop]) (by rw [k3]; simp)
  have hcnt : st2.pipe_cnt = 1 := by rw [k2, h2]
  have hloop : ∀ C, parse_tokens (A ++ pipe_token :: (B ++ pipe_token :: C))
      (entry_state a p 0) =
      .ok (note_pipe pipe_token { st2 with
        piped_args_list := b
        piped_args_index := st2.piped_args_index + 1
        stores := st2.stores ++ [(.piped_args_list, st2.piped_args_index)] }) := by
    intro C
    rw [hrun1, hrun2]
    simp only [parse_tokens]
    rw [hstore]
    simp only []
    rw [if_pos (by simp [note_pipe_pipe, hcnt])]
  refine ⟨{ ret := 1, args_list := st2.args_list, piped_args_list := b, is_piped := 1,
             stores := st2.stores ++ [(.piped_args_list, st2.piped_args_index)],
             stdout := st2.stdout ++ ["cubsh ~> max supported pipe count is 1\n"] },
    ?_, ?_, ?_, ?_, ?_⟩
  · intro C
    unfold parse_token_list
    rw [hloop C]
    simp only []
    unfold parse_finish
    rw [if_pos (by simp [note_pipe_pipe, hcnt])]
    simp [note_pipe_pipe]
  · rfl
  · rfl
  · simp [k7, h7]
  · show st2.stores ++ [(ArrayId.piped_args_list, st2.piped_args_index)] = _
    rw [k8, h8, k3]

/-! ## Splitting a token list at the pipe token -/

theorem before_pipe_plain (toks : List Token) : ∀ t ∈ before_pipe toks, t ≠ pipe_token := by
  intro t ht
  have := List.mem_takeWhile_imp ht
  simpa using this

theorem before_pipe_cons_plain (t : Token) (ts : List Token) (ht : t ≠ pipe_token) :
    before_pipe (t :: ts) = t :: before_pipe ts := by
  simp [before_pipe, List.takeWhile, ht]

theorem after_pipe_cons_plain (t : Token) (ts : List Token) (ht : t ≠ pipe_token) :
    after_pipe (t :: ts) = after_pipe ts := by
  simp [after_pipe, List.dropWhile, ht]

theorem before_pipe_cons_pipe (ts : List Token) : before_pipe (pipe_token :: ts) = [] := by
  simp [before_pipe, List.takeWhile]

theorem after_pipe_cons_pipe (ts : List Token) : after_pipe (pipe_token :: ts) = ts := by
  simp [after_pipe, List.dropWhile]

theorem split_no_pipe (toks : List Token) (h : pipe_token ∉ toks) :
    before_pipe toks = toks ∧ after_pipe toks = [] := by
  induction toks with
  | nil => simp [before_pipe, after_pipe]
  | cons t ts ih =>
    have ht : t ≠ pipe_token := fun e => h (e ▸ List.mem_cons_self _ _)
    have hts : pipe_token ∉ ts := fun m => h (List.mem_cons_of_mem _ m)
    obtain ⟨h1, h2⟩ := ih hts
    rw [before_pipe_cons_plain t ts ht, after_pipe_cons_plain t ts ht, h1, h2]
    exact ⟨rfl, rfl⟩

theorem split_pipe (toks : List Token) (h : pipe_token ∈ toks) :
    toks = before_pipe toks ++ pipe_token :: after_pipe toks := by
  induction toks with
  | nil => simp at h
  | cons t ts ih =>
    by_cases ht : t = pipe_token
    · subst ht
      rw [before_pipe_cons_pipe, after_pipe_cons_pipe]
      rfl
    · have hts : pipe_token ∈ ts := by
        rcases List.mem_cons.mp h with e | m
        · exact absurd e.symm ht
        · exact m
      have := ih hts
      rw [before_pipe_cons_plain t ts ht, after_pipe_cons_plain t ts ht, List.cons_append,
        ← this]

theorem count_split (toks : List Token) (h : pipe_token ∈ toks) :
    toks.count pipe_token = 1 + (after_pipe toks).count pipe_token := by
  have hs := split_pipe toks h
  have hb : (before_pipe toks).count pipe_token = 0 :=
    List.count_eq_zero.mpr (fun m => before_pipe_plain toks _ m rfl)
  conv_lhs => rw [hs]
  rw [List.count_append, hb, List.count_cons_self]
  omega

theorem plain_of_count_zero (toks : List Token) (h : toks.count pipe_token = 0) :
    ∀ t ∈ toks, t ≠ pipe_token := by
  intro t ht e
  exact List.count_eq_zero.mp h (e ▸ ht)

/-! ## Facts about check_exit_inputs and the loop body -/

theorem check_exit_iff (s : List Char) : check_exit_inputs s = 0 ↔ s ∈ exit_literals := by
  unfold check_exit_inputs exit_literals
  simp only [strcmp_eq_zero_iff, List.mem_cons, List.mem_singleton, List.not_mem_nil, or_false]
  constructor
  · intro h
    by_contra hc
    rw [if_neg hc] at h
    exact absurd h (by decide)
  · intro h
    rw [if_pos h]

theorem check_exit_one (s : List Char) (h : s ∉ exit_literals) : check_exit_inputs s = 1 := by
  have hne : ¬ check_exit_inputs s = 0 := fun e => h ((check_exit_iff s).mp e)
  unfold check_exit_inputs at *
  by_cases hc : strcmp s "quit".toList = 0 ∨ strcmp s "quit()".toList = 0 ∨
      strcmp s "exit".toList = 0 ∨ strcmp s "exit()".toList = 0 ∨ strcmp s "q".toList = 0
  · rw [if_pos hc] at hne
    exact absurd rfl hne
  · rw [if_neg hc]

theorem exit_literal_runs (s : List Char) (h : s ∈ exit_literals) :
    (space_runs s).count pipe_token = 0 := by
  unfold exit_literals at h
  simp only [List.mem_cons, List.mem_singleton, List.not_mem_nil, or_false] at h
  rcases h with h | h | h | h | h <;> subst h <;> decide

theorem c_string_of_no_nul (l : List Char) (h : NUL ∉ l) : c_string l = l := by
  unfold c_string
  rw [List.takeWhile_eq_self_iff]
  intro c hc
  simp only [ne_eq, decide_eq_true_eq]
  intro e
  exact h (e ▸ hc)

/-- The command line 193 leaves in the buffer when the line read holds no NUL:
the line without its newline. -/
theorem command_of_line (line : List Char) (h : NUL ∉ line) :
    strlen (line ++ ['\n']) ≠ 0 ∧ (c_string (line ++ ['\n'])).dropLast = line := by
  have hn : NUL ∉ line ++ ['\n'] := by
    intro hm
    rcases List.mem_append.mp hm with m | m
    · exact h m
    · exact absurd (List.mem_singleton.mp m) (by decide)
  unfold strlen
  rw [c_string_of_no_nul _ hn]
  exact ⟨by simp, by simp⟩

theorem exit_literal_no_nul (l : List Char) (h : l ∈ exit_literals) : NUL ∉ l := by
  unfold exit_literals at h
  simp only [List.mem_cons, List.mem_singleton, List.not_mem_nil, or_false] at h
  rcases h with h | h | h | h | h <;> subst h <;> decide

/-- The loop body on a line that is not an exit literal: the choice is made from
the result of `parse_command`. -/
theorem shell_dispatch_parsed (line : List Char) (a p : ArgArray)
    (hnul : NUL ∉ line) (h : line ∉ exit_literals) :
    shell_dispatch (some (line ++ ['\n'])) a p =
      match parse_command line a p 0 with
      | .error f => ([PROMPT], .undefined f)
      | .ok r =>
        if r.ret ≠ 0 then (PROMPT :: r.stdout, .skip)
        else if r.is_piped = 0 then (PROMPT :: r.stdout, .call_exec_command r.args_list)
        else (PROMPT :: r.stdout, .call_exec_piped_command r.args_list r.piped_args_list) := by
  obtain ⟨h1, h2⟩ := command_of_line line hnul
  unfold shell_dispatch
  simp only [h2]
  rw [if_neg (by simp), if_neg h1, if_neg (by rw [check_exit_one line h]; decide)]

theorem cell_in_range (arr : ArrayId) (n : Nat) (h : n < MAX_COMMAND_ARGS) :
    0 ≤ ((arr, (n : Int)) : ArrayId × Int).2 ∧
      ((arr, (n : Int)) : ArrayId × Int).2 < (MAX_COMMAND_ARGS : Int) :=
  ⟨Int.natCast_nonneg _, by show (n : Int) < (MAX_COMMAND_ARGS : Int); exact_mod_cast h⟩

/-- A line with two or more pipe tokens, split at the first two. -/
theorem split_two_pipes (toks : List Token) (h : 2 ≤ toks.count pipe_token) :
    pipe_token ∈ toks ∧ pipe_token ∈ after_pipe toks ∧
    toks = before_pipe toks ++ pipe_token ::
      (before_pipe (after_pipe toks) ++ pipe_token :: after_pipe (after_pipe toks)) := by
  have hp : pipe_token ∈ toks := List.count_pos_iff.mp (by omega)
  have hc := count_split toks hp
  have hp2 : pipe_token ∈ after_pipe toks := List.count_pos_iff.mp (by omega)
  refine ⟨hp, hp2, ?_⟩
  rw [← split_pipe _ hp2]
  exact split_pipe _ hp

theorem exit_literal_no_space (l : List Char) (h : l ∈ exit_literals) : ' ' ∉ l := by
  unfold exit_literals at h
  simp only [List.mem_cons, List.mem_singleton, List.not_mem_nil, or_false] at h
  rcases h with h | h | h | h | h <;> subst h <;> decide

theorem shell_dispatch_exit (e : List Char) (a p : ArgArray) (h : e ∈ exit_literals) :
    shell_dispatch (some (e ++ ['\n'])) a p = ([PROMPT, "\n" ++ GOODBYE ++ "\n"], .goodbye) := by
  obtain ⟨h1, h2⟩ := command_of_line e (exit_literal_no_nul e h)
  unfold shell_dispatch
  simp only [h2]
  rw [if_neg (by simp), if_neg h1, if_pos ((check_exit_iff e).mpr h)]

/-- The loop body ends the process only through the farewell branch. -/
theorem shell_iteration_exited (os : Os) (input : Option (List Char)) (a p : ArgArray)
    (status : Int) (h : (shell_iteration os input a p).2 = .exited status) :
    (shell_dispatch input a p).2 = .goodbye := by
  unfold shell_iteration at h
  cases hd : shell_dispatch input a p with
  | mk out act =>
    rw [hd] at h
    cases act with
    | goodbye => rfl
    | skip => simp at h
    | undefined f => simp at h
    | call_exec_command b =>
      simp only [] at h
      cases hx : exec_command b os.fork_ret os.execvp_fails with
      | mk calls ctl =>
        rw [hx] at h
        cases ctl <;> simp at h
    | call_exec_piped_command b c =>
      simp only [] at h
      cases hx : exec_piped_command b c os.pipe_ret os.fds0 os.fds1 os.fork_ret os.fork_ret2
          os.execvp_fails with
      | mk calls ctl =>
        rw [hx] at h
        cases ctl <;> simp at h

theorem shell_dispatch_not_goodbye (line : List Char) (a p : ArgArray)
    (hnul : NUL ∉ line) (h : line ∉ exit_literals) :
    (shell_dispatch (some (line ++ ['\n'])) a p).2 ≠ .goodbye := by
  rw [shell_dispatch_parsed line a p hnul h]
  cases parse_command line a p 0 with
  | error f => simp
  | ok r =>
    simp only []
    split_ifs <;> simp

theorem space_runs_blank (n : Nat) : space_runs (List.replicate n ' ') = [] := by
  induction n with
  | zero => simp [space_runs]
  | succ n ih =>
    unfold space_runs at *
    simp only [List.replicate_succ, List.splitOnP_cons, beq_self_eq_true, if_true,
      List.filter_cons, List.isEmpty_nil, Bool.not_true, Bool.false_eq_true, if_false]
    exact ih

theorem blank_no_nul (n : Nat) : NUL ∉ List.replicate n ' ' := by
  intro h
  have := List.eq_of_mem_replicate h
  exact absurd this (by decide)

theorem blank_not_exit (n : Nat) : List.replicate n ' ' ∉ exit_literals := by
  intro h
  cases n with
  | zero => exact absurd h (by decide)
  | succ n => exact exit_literal_no_space _ h (by simp [List.replicate_succ])

theorem first_of_argv_nil (a : ArgArray) (h : a.argv = []) : a.first = none := by
  unfold ArgArray.argv at h
  unfold ArgArray.first
  cases hc : a.cells with
  | nil => rfl
  | cons x xs =>
    rw [hc] at h
    cases x with
    | none => rfl
    | some t => simp [List.takeWhile] at h

theorem store_token_fault (t : Token) (st : ParseState) :
    store_token t st ≠ .error .out_of_fuel := by
  unfold store_token
  split_ifs
  · cases st.piped_args_list.store st.piped_args_index (some t) <;> simp
  · cases st.args_list.store st.index (some t) <;> simp

theorem parse_tokens_fault (toks : List Token) (st : ParseState) :
    parse_tokens toks st ≠ .error .out_of_fuel := by
  induction toks generalizing st with
  | nil => simp [parse_tokens]
  | cons t ts ih =>
    simp only [parse_tokens]
    cases hs : store_token t st with
    | error e =>
      simp only []
      intro h
      cases h
      exact store_token_fault t st hs
    | ok st1 =>
      simp only []
      split_ifs
      · simp
      · exact ih _

/-- The fuel given to the loop is enough: `parse_command` never stops for lack
of it, on any line. -/
theorem parse_command_fuel (line : List Char) (a p : ArgArray) (f : Int) :
    parse_command line a p f ≠ .error .out_of_fuel := by
  rw [parse_command_runs]
  unfold parse_token_list
  cases h : parse_tokens (space_runs line) (entry_state a p f) with
  | error e =>
    simp only []
    intro he
    cases he
    exact parse_tokens_fault _ _ h
  | ok st =>
    simp only []
    unfold parse_finish
    split_ifs
    · simp
    · cases st.args_list.store st.index none with
      | none => simp
      | some b =>
        cases st.piped_args_list.store st.piped_args_index none <;> simp

theorem exit_literal_not_pipe (l : List Char) (h : l ∈ exit_literals) : l ≠ pipe_token := by
  unfold exit_literals at h
  simp only [List.mem_cons, List.mem_singleton, List.not_mem_nil, or_false] at h
  rcases h with h | h | h | h | h <;> subst h <;> decide

theorem exit_literal_single (l : List Char) (h : l ∈ exit_literals) :
    (space_runs l).length = 1 := by
  unfold exit_literals at h
  simp only [List.mem_cons, List.mem_singleton, List.not_mem_nil, or_false] at h
  rcases h with h | h | h | h | h <;> subst h <;> decide

theorem exec_piped_command_prints_nothing (a p : ArgArray)
    (pipe_ret fds0 fds1 pid1 pid2 : Int) (fails : Bool) (text : String) :
    Event.printf text ∉ (exec_piped_command a p pipe_ret fds0 fds1 pid1 pid2 fails).1 := by
  unfold exec_piped_command
  split_ifs <;> simp

/-- The loop body after it has chosen `exec_piped_command`. -/
theorem shell_iteration_piped (os : Os) (input : Option (List Char)) (a p b c : ArgArray)
    (out : List String)
    (h : shell_dispatch input a p = (out, .call_exec_piped_command b c)) :
    shell_iteration os input a p =
      (out.map Event.printf ++
        (exec_piped_command b c os.pipe_ret os.fds0 os.fds1 os.fork_ret os.fork_ret2
          os.execvp_fails).1,
       LoopStep.after_launcher
        (exec_piped_command b c os.pipe_ret os.fds0 os.fds1 os.fork_ret os.fork_ret2
          os.execvp_fails).2) := by
  unfold shell_iteration
  rw [h]
  simp only []
  cases hx : exec_piped_command b c os.pipe_ret os.fds0 os.fds1 os.fork_ret os.fork_ret2
      os.execvp_fails with
  | mk calls ctl => cases ctl <;> rfl

/-! ## The claims -/

/-- C1: for every line with at most one pipe token among its space-separated
tokens, and at most `MAX_COMMAND_ARGS - 1` tokens on each side of it (so that
each stage and its end marker fit the array), `parse_command` called with
`*is_piped = 0` returns 0; `*is_piped` is 1 exactly when a pipe token occurs
(and 0 otherwise); `args_list` up to its `NULL` holds the tokens before the pipe
(all tokens when there is none); `piped_args_list` up to its `NULL` holds the
tokens after the pipe (none when there is no pipe or nothing follows it); and
neither vector holds the pipe token. -/
theorem parse_command_reference_split (line : List Char) (a p : ArgArray)
    (hpipes : (space_runs line).count pipe_token ≤ 1)
    (hfit1 : (before_pipe (space_runs line)).length < MAX_COMMAND_ARGS)
    (hfit2 : (after_pipe (space_runs line)).length < MAX_COMMAND_ARGS) :
    ∃ r, parse_command line a p 0 = .ok r ∧ r.ret = 0 ∧
      (r.is_piped = 1 ↔ pipe_token ∈ space_runs line) ∧
      (pipe_token ∉ space_runs line → r.is_piped = 0) ∧
      r.args_list.argv = before_pipe (space_runs line) ∧
      r.piped_args_list.argv = after_pipe (space_runs line) ∧
      pipe_token ∉ r.args_list.argv ∧ pipe_token ∉ r.piped_args_list.argv := by
  rw [parse_command_runs]
  by_cases hp : pipe_token ∈ space_runs line
  · have hs := split_pipe _ hp
    have hc := count_split _ hp
    have hB : ∀ t ∈ after_pipe (space_runs line), t ≠ pipe_token :=
      plain_of_count_zero _ (by omega)
    obtain ⟨r, hr, r1, r2, r3, r4, _, _⟩ :=
      shape_one_pipe _ _ a p (before_pipe_plain (space_runs line)) hB hfit1 hfit2
    rw [← hs] at hr
    refine ⟨r, hr, r1, ⟨fun _ => hp, fun _ => r2⟩, fun h => absurd hp h, r3, r4, ?_, ?_⟩
    · rw [r3]; exact fun m => before_pipe_plain _ _ m rfl
    · rw [r4]; exact fun m => hB _ m rfl
  · obtain ⟨h1, h2⟩ := split_no_pipe _ hp
    obtain ⟨r, hr, r1, r2, r3, r4, _, _⟩ :=
      shape_no_pipe (space_runs line) a p (fun t ht e => hp (e ▸ ht)) (by rw [← h1]; exact hfit1)
    refine ⟨r, hr, r1, ⟨fun h => ?_, fun h => absurd h hp⟩, fun _ => r2, ?_, ?_, ?_, ?_⟩
    · rw [r2] at h; exact absurd h (by decide)
    · rw [r3, h1]
    · rw [r4, h2]
    · rw [r3]; exact hp
    · rw [r4]; simp

/-- Witness for C1: the line `ls -l | wc` parsed into two arrays of `NULL`s. -/
theorem parse_command_reference_split_witness :
    (space_runs "ls -l | wc".toList).count pipe_token ≤ 1 ∧
    (before_pipe (space_runs "ls -l | wc".toList)).length < MAX_COMMAND_ARGS ∧
    (after_pipe (space_runs "ls -l | wc".toList)).length < MAX_COMMAND_ARGS ∧
    before_pipe (space_runs "ls -l | wc".toList) = ["ls".toList, "-l".toList] ∧
    after_pipe (space_runs "ls -l | wc".toList) = ["wc".toList] ∧
    ∃ r, parse_command "ls -l | wc".toList ArgArray.blank ArgArray.blank 0 = .ok r ∧
      r.ret = 0 ∧
      (r.is_piped = 1 ↔ pipe_token ∈ space_runs "ls -l | wc".toList) ∧
      (pipe_token ∉ space_runs "ls -l | wc".toList → r.is_piped = 0) ∧
      r.args_list.argv = before_pipe (space_runs "ls -l | wc".toList) ∧
      r.piped_args_list.argv = after_pipe (space_runs "ls -l | wc".toList) ∧
      pipe_token ∉ r.args_list.argv ∧ pipe_token ∉ r.piped_args_list.argv :=
  ⟨by decide, by decide, by decide, by decide, by decide,
    parse_command_reference_split "ls -l | wc".toList ArgArray.blank ArgArray.blank
      (by decide) (by decide) (by decide)⟩

/-- C10: for every line with at most 9 tokens before the first pipe token (or
the end of the line) and at most 9 tokens between the first and the second pipe
token (or the end of the line), `parse_command` called with `*is_piped = 0` runs
without a store outside the arrays; the stores it makes are, in order, one per
token of the first stage, the transient store of the pipe token, one per token
of the second stage, then the store of a second pipe token or the two `NULL`
end markers; and every one of them is at an index `i` with
`0 ≤ i < MAX_COMMAND_ARGS`. -/
theorem parse_command_stores_in_bounds (line : List Char) (a p : ArgArray)
    (h1 : (before_pipe (space_runs line)).length ≤ 9)
    (h2 : (before_pipe (after_pipe (space_runs line))).length ≤ 9) :
    ∃ r, parse_command line a p 0 = .ok r ∧
      r.stores = expected_stores (space_runs line) ∧
      ∀ s ∈ r.stores, 0 ≤ s.2 ∧ s.2 < (MAX_COMMAND_ARGS : Int) := by
  have hA : (before_pipe (space_runs line)).length < MAX_COMMAND_ARGS := by
    unfold MAX_COMMAND_ARGS; omega
  have hB : (before_pipe (after_pipe (space_runs line))).length < MAX_COMMAND_ARGS := by
    unfold MAX_COMMAND_ARGS; omega
  rw [parse_command_runs]
  by_cases hp : pipe_token ∈ space_runs line
  · by_cases hp2 : pipe_token ∈ after_pipe (space_runs line)
    · have hc : 2 ≤ (space_runs line).count pipe_token := by
        rw [count_split _ hp]
        have := List.count_pos_iff.mpr hp2
        omega
      obtain ⟨_, _, hs⟩ := split_two_pipes _ hc
      obtain ⟨r, hr, _, _, _, r4⟩ :=
        shape_two_pipes _ _ a p (before_pipe_plain (space_runs line))
          (before_pipe_plain (after_pipe (space_runs line))) hA hB
      have hr1 := hr (after_pipe (after_pipe (space_runs line)))
      rw [← hs] at hr1
      refine ⟨r, hr1, ?_, ?_⟩
      · rw [r4]
        unfold expected_stores
        simp only [hp, hp2, not_true_eq_false, if_false]
      · intro s hs
        rw [r4] at hs
        simp only [List.mem_append, List.mem_singleton] at hs
        rcases hs with ((hs | hs) | hs) | hs
        · exact stage_stores_in_range _ _ hA s hs
        · subst hs; exact cell_in_range _ _ hA
        · exact stage_stores_in_range _ _ hB s hs
        · subst hs; exact cell_in_range _ _ hB
    · obtain ⟨e1, _⟩ := split_no_pipe _ hp2
      have hs := split_pipe _ hp
      rw [e1] at hB
      obtain ⟨r, hr, _, _, _, _, _, r6⟩ :=
        shape_one_pipe _ _ a p (before_pipe_plain (space_runs line))
          (fun t ht e => hp2 (e ▸ ht)) hA hB
      rw [← hs] at hr
      refine ⟨r, hr, ?_, ?_⟩
      · rw [r6]
        unfold expected_stores
        simp only [hp, hp2, not_true_eq_false, not_false_eq_true, if_false, if_true, e1]
      · intro s hs
        rw [r6] at hs
        simp only [List.mem_append, List.mem_singleton, List.mem_cons, List.not_mem_nil,
          or_false] at hs
        rcases hs with ((hs | hs) | hs) | hs | hs
        · exact stage_stores_in_range _ _ hA s hs
        · subst hs; exact cell_in_range _ _ hA
        · exact stage_stores_in_range _ _ hB s hs
        · subst hs; exact cell_in_range _ _ hA
        · subst hs; exact cell_in_range _ _ hB
  · obtain ⟨e1, e2⟩ := split_no_pipe _ hp
    rw [e1] at hA
    obtain ⟨r, hr, _, _, _, _, _, r6⟩ :=
      shape_no_pipe (space_runs line) a p (fun t ht e => hp (e ▸ ht)) hA
    refine ⟨r, hr, ?_, ?_⟩
    · rw [r6]
      unfold expected_stores
      simp only [hp, not_false_eq_true, if_true, e1]
    · intro s hs
      rw [r6] at hs
      simp only [List.mem_append, List.mem_singleton, List.mem_cons, List.not_mem_nil,
        or_false] at hs
      rcases hs with hs | hs | hs
      · exact stage_stores_in_range _ _ hA s hs
      · subst hs; exact cell_in_range _ _ hA
      · subst hs; exact ⟨by decide, by decide⟩

/-- Witness for C10: nine tokens, a pipe, nine tokens, a second pipe and more. -/
theorem parse_command_stores_in_bounds_witness :
    (before_pipe (space_runs "a b c d e f g h i | j k l m n o p q r | s t".toList)).length ≤ 9 ∧
    (before_pipe (after_pipe
      (space_runs "a b c d e f g h i | j k l m n o p q r | s t".toList))).length ≤ 9 ∧
    ∃ r, parse_command "a b c d e f g h i | j k l m n o p q r | s t".toList
          ArgArray.blank ArgArray.blank 0 = .ok r ∧
      r.stores = expected_stores
        (space_runs "a b c d e f g h i | j k l m n o p q r | s t".toList) ∧
      ∀ s ∈ r.stores, 0 ≤ s.2 ∧ s.2 < (MAX_COMMAND_ARGS : Int) :=
  ⟨by decide, by decide,
    parse_command_stores_in_bounds "a b c d e f g h i | j k l m n o p q r | s t".toList
      ArgArray.blank ArgArray.blank (by decide) (by decide)⟩

/-- C2, the claim as stated fails: the line below has two pipe tokens, but ten
tokens come before the first one, so the store of that pipe token goes to
`args_list[10]`, outside the array; the run has no defined result and the loop
body gets no return value to act on. -/
theorem two_pipes_overflow :
    2 ≤ (space_runs "a b c d e f g h i j | k | l".toList).count pipe_token ∧
    parse_command "a b c d e f g h i j | k | l".toList ArgArray.blank ArgArray.blank 0 =
      .error (.out_of_bounds .args_list 10) ∧
    shell_dispatch (some "a b c d e f g h i j | k | l\n".toList) ArgArray.blank
      ArgArray.blank = ([PROMPT], .undefined (.out_of_bounds .args_list 10)) := by
  refine ⟨by decide, by rfl, by rfl⟩

/-- C2 as amended: for every line without a NUL character that has two or more
pipe tokens, at most 9 tokens before the first pipe token and at most 9 between
the first and the second, `parse_command` returns 1 after printing the
pipe-count message,
the loop body launches nothing and is back at the prompt whatever the system
calls would have returned, and every line with the same tokens up to the second
pipe token gives the same result. -/
theorem two_pipes_rejected (line : List Char) (a p : ArgArray)
    (hnul : NUL ∉ line)
    (hpipes : 2 ≤ (space_runs line).count pipe_token)
    (hfit1 : (before_pipe (space_runs line)).length ≤ 9)
    (hfit2 : (before_pipe (after_pipe (space_runs line))).length ≤ 9) :
    ∃ r, parse_command line a p 0 = .ok r ∧ r.ret = 1 ∧
      r.stdout = ["cubsh ~> max supported pipe count is 1\n"] ∧
      shell_dispatch (some (line ++ ['\n'])) a p =
        ([PROMPT, "cubsh ~> max supported pipe count is 1\n"], .skip) ∧
      (∀ os, shell_iteration os (some (line ++ ['\n'])) a p =
        ([.printf PROMPT, .printf "cubsh ~> max supported pipe count is 1\n"],
         .at_prompt)) ∧
      ∀ other, 2 ≤ (space_runs other).count pipe_token →
        before_pipe (space_runs other) = before_pipe (space_runs line) →
        before_pipe (after_pipe (space_runs other)) =
          before_pipe (after_pipe (space_runs line)) →
        parse_command other a p 0 = .ok r := by
  have hA : (before_pipe (space_runs line)).length < MAX_COMMAND_ARGS := by
    unfold MAX_COMMAND_ARGS; omega
  have hB : (before_pipe (after_pipe (space_runs line))).length < MAX_COMMAND_ARGS := by
    unfold MAX_COMMAND_ARGS; omega
  obtain ⟨_, _, hs⟩ := split_two_pipes _ hpipes
  obtain ⟨r, hr, r1, _, r3, _⟩ :=
    shape_two_pipes _ _ a p (before_pipe_plain (space_runs line))
      (before_pipe_plain (after_pipe (space_runs line))) hA hB
  have hparse : parse_command line a p 0 = .ok r := by
    rw [parse_command_runs]
    have := hr (after_pipe (after_pipe (space_runs line)))
    rw [← hs] at this
    exact this
  have hnot : line ∉ exit_literals := by
    intro hm
    have := exit_literal_runs line hm
    omega
  have hdisp : shell_dispatch (some (line ++ ['\n'])) a p =
      ([PROMPT, "cubsh ~> max supported pipe count is 1\n"], .skip) := by
    rw [shell_dispatch_parsed line a p hnul hnot, hparse]
    simp only []
    rw [if_pos (by rw [r1]; decide), r3]
  refine ⟨r, hparse, r1, r3, hdisp, ?_, ?_⟩
  · intro os
    unfold shell_iteration
    rw [hdisp]
    rfl
  · intro other ho e1 e2
    obtain ⟨_, _, hs2⟩ := split_two_pipes _ ho
    rw [parse_command_runs, hs2, e1, e2]
    exact hr _

/-- Witness for C2 as amended: the line `ls | wc | wc`. -/
theorem two_pipes_rejected_witness :
    NUL ∉ "ls | wc | wc".toList ∧
    2 ≤ (space_runs "ls | wc | wc".toList).count pipe_token ∧
    ∃ r, parse_command "ls | wc | wc".toList ArgArray.blank ArgArray.blank 0 = .ok r ∧
      r.ret = 1 ∧
      r.stdout = ["cubsh ~> max supported pipe count is 1\n"] ∧
      shell_dispatch (some ("ls | wc | wc".toList ++ ['\n'])) ArgArray.blank ArgArray.blank =
        ([PROMPT, "cubsh ~> max supported pipe count is 1\n"], .skip) ∧
      (∀ os, shell_iteration os (some ("ls | wc | wc".toList ++ ['\n'])) ArgArray.blank
          ArgArray.blank =
        ([.printf PROMPT, .printf "cubsh ~> max supported pipe count is 1\n"],
         .at_prompt)) ∧
      ∀ other, 2 ≤ (space_runs other).count pipe_token →
        before_pipe (space_runs other) = before_pipe (space_runs "ls | wc | wc".toList) →
        before_pipe (after_pipe (space_runs other)) =
          before_pipe (after_pipe (space_runs "ls | wc | wc".toList)) →
        parse_command other ArgArray.blank ArgArray.blank 0 = .ok r :=
  ⟨by decide, by decide,
    two_pipes_rejected "ls | wc | wc".toList ArgArray.blank ArgArray.blank
      (by decide) (by decide) (by decide) (by decide)⟩

/-- C3: for every string `s`, `check_exit_inputs s` is 0 exactly when `s` is one
of `quit`, `quit()`, `exit`, `exit()`, `q`, the whole string being compared
with its case; for every other string it is 1, so for `Quit`, `Q`, `exit now`
and the empty string. -/
theorem check_exit_inputs_exact (s : List Char) :
    (check_exit_inputs s = 0 ↔ s ∈ exit_literals) ∧
    (s ∉ exit_literals → check_exit_inputs s = 1) ∧
    check_exit_inputs "Quit".toList = 1 ∧ check_exit_inputs "Q".toList = 1 ∧
    check_exit_inputs "exit now".toList = 1 ∧ check_exit_inputs [] = 1 :=
  ⟨check_exit_iff s, check_exit_one s, by decide, by decide, by decide, by decide⟩

/-- C4, the claim as stated fails: the line `q | ls` is not an exit command.
`check_exit_inputs` returns 1 for it, the loop body does not exit, and the line
runs as the pipeline of `q` into `ls`: the parent makes the pipe, forks twice,
closes both ends and waits twice; the first child runs `execvp` on `q`. -/
theorem exit_literal_with_pipe_runs :
    check_exit_inputs "q | ls".toList = 1 ∧
    (shell_dispatch (some "q | ls\n".toList) ArgArray.blank ArgArray.blank).2 ≠ .goodbye ∧
    shell_iteration ⟨501, 502, 0, 3, 4, false⟩ (some "q | ls\n".toList) ArgArray.blank
        ArgArray.blank =
      ([.printf PROMPT, .pipe 0 3 4, .fork 501, .fork 502, .close 3, .close 4, .wait, .wait],
       .at_prompt) ∧
    shell_iteration ⟨0, 502, 0, 3, 4, false⟩ (some "q | ls\n".toList) ArgArray.blank
        ArgArray.blank =
      ([.printf PROMPT, .pipe 0 3 4, .fork 0, .close 3, .dup2 4 1, .close 4,
        .execvp (some "q".toList) ["q".toList]], .replaced) := by
  refine ⟨by decide, by decide, by rfl, by rfl⟩

/-- C4 as amended: the exit check runs before pipe parsing and compares the whole
line.  A line that is exactly an exit literal makes the loop body print the
farewell and end the process with success status, whatever the system calls
would return.  A line without a NUL character whose tokens are an exit literal,
a pipe token and further tokens (at most 9 of them before any second pipe token)
is not an exit command: `check_exit_inputs` returns 1 for it, the loop body
does not print the farewell and does not exit, and the line is parsed as any
other line: with no second pipe token the loop body calls `exec_piped_command`
on the literal as first vector and the further tokens as second vector, and
with a second pipe token it prints the pipe-count message and is back at the
prompt. -/
theorem exit_check_whole_line (line e : List Char) (rest : List Token) (a p : ArgArray)
    (he : e ∈ exit_literals) (hnul : NUL ∉ line)
    (htoks : space_runs line = e :: pipe_token :: rest)
    (hfit : (before_pipe rest).length ≤ 9) :
    shell_dispatch (some (e ++ ['\n'])) a p = ([PROMPT, "\n" ++ GOODBYE ++ "\n"], .goodbye) ∧
    (∀ os, shell_iteration os (some (e ++ ['\n'])) a p =
      ([.printf PROMPT, .printf ("\n" ++ GOODBYE ++ "\n")], .exited EXIT_SUCCESS)) ∧
    check_exit_inputs line = 1 ∧
    "\n" ++ GOODBYE ++ "\n" ∉ (shell_dispatch (some (line ++ ['\n'])) a p).1 ∧
    (∀ os, Event.printf ("\n" ++ GOODBYE ++ "\n") ∉
      (shell_iteration os (some (line ++ ['\n'])) a p).1) ∧
    (∀ os status, (shell_iteration os (some (line ++ ['\n'])) a p).2 ≠ .exited status) ∧
    (pipe_token ∉ rest → ∃ b c, b.argv = [e] ∧ c.argv = rest ∧
      shell_dispatch (some (line ++ ['\n'])) a p = ([PROMPT], .call_exec_piped_command b c) ∧
      ∀ os, shell_iteration os (some (line ++ ['\n'])) a p =
        (.printf PROMPT ::
          (exec_piped_command b c os.pipe_ret os.fds0 os.fds1 os.fork_ret os.fork_ret2
            os.execvp_fails).1,
         LoopStep.after_launcher
          (exec_piped_command b c os.pipe_ret os.fds0 os.fds1 os.fork_ret os.fork_ret2
            os.execvp_fails).2)) ∧
    (pipe_token ∈ rest →
      shell_dispatch (some (line ++ ['\n'])) a p =
        ([PROMPT, "cubsh ~> max supported pipe count is 1\n"], .skip) ∧
      ∀ os, shell_iteration os (some (line ++ ['\n'])) a p =
        ([.printf PROMPT, .printf "cubsh ~> max supported pipe count is 1\n"],
         .at_prompt)) := by
  have hnot : line ∉ exit_literals := by
    intro hm
    have := exit_literal_single line hm
    rw [htoks] at this
    simp at this
  have hd := shell_dispatch_exit e a p he
  have hE : ∀ t ∈ [e], t ≠ pipe_token := by
    intro t ht
    rw [List.mem_singleton.mp ht]
    exact exit_literal_not_pipe e he
  have hEl : [e].length < MAX_COMMAND_ARGS := by
    unfold MAX_COMMAND_ARGS
    simp
  have hB : (before_pipe rest).length < MAX_COMMAND_ARGS := by unfold MAX_COMMAND_ARGS; omega
  have hexit : ∀ os, shell_iteration os (some (e ++ ['\n'])) a p =
      ([.printf PROMPT, .printf ("\n" ++ GOODBYE ++ "\n")], .exited EXIT_SUCCESS) := by
    intro os
    unfold shell_iteration
    rw [hd]
    rfl
  by_cases hp : pipe_token ∈ rest
  · have hs := split_pipe rest hp
    obtain ⟨r, hr, r1, _, r3, _⟩ :=
      shape_two_pipes [e] (before_pipe rest) a p hE (before_pipe_plain rest) hEl hB
    have hparse : parse_command line a p 0 = .ok r := by
      rw [parse_command_runs, htoks]
      have := hr (after_pipe rest)
      rw [← hs] at this
      exact this
    have hdisp : shell_dispatch (some (line ++ ['\n'])) a p =
        ([PROMPT, "cubsh ~> max supported pipe count is 1\n"], .skip) := by
      rw [shell_dispatch_parsed line a p hnul hnot, hparse]
      simp only []
      rw [if_pos (by rw [r1]; decide), r3]
    have hit : ∀ os, shell_iteration os (some (line ++ ['\n'])) a p =
        ([.printf PROMPT, .printf "cubsh ~> max supported pipe count is 1\n"],
         .at_prompt) := by
      intro os
      unfold shell_iteration
      rw [hdisp]
      rfl
    refine ⟨hd, hexit, check_exit_one _ hnot, ?_, ?_, ?_, fun h => absurd hp h,
      fun _ => ⟨hdisp, hit⟩⟩
    · rw [hdisp]; decide
    · intro os; rw [hit os]; decide
    · intro os status; rw [hit os]; simp
  · obtain ⟨e1, _⟩ := split_no_pipe rest hp
    rw [e1] at hB
    obtain ⟨r, hr, r1, r2, r3, r4, r5, _⟩ :=
      shape_one_pipe [e] rest a p hE (fun t ht h => hp (h ▸ ht)) hEl hB
    have hparse : parse_command line a p 0 = .ok r := by
      rw [parse_command_runs, htoks]
      exact hr
    have hdisp : shell_dispatch (some (line ++ ['\n'])) a p =
        ([PROMPT], .call_exec_piped_command r.args_list r.piped_args_list) := by
      rw [shell_dispatch_parsed line a p hnul hnot, hparse]
      simp only []
      rw [if_neg (by rw [r1]; decide), if_neg (by rw [r2]; decide), r5]
    have hit := fun os => shell_iteration_piped os _ a p _ _ _ hdisp
    refine ⟨hd, hexit, check_exit_one _ hnot, ?_, ?_, ?_,
      fun _ => ⟨_, _, r3, r4, hdisp, hit⟩, fun h => absurd h hp⟩
    · rw [hdisp]
      show "\n" ++ GOODBYE ++ "\n" ∉ [PROMPT]
      decide
    · intro os
      rw [hit os]
      simp only [List.map_cons, List.map_nil, List.cons_append, List.nil_append,
        List.mem_cons, not_or]
      exact ⟨by decide, exec_piped_command_prints_nothing _ _ _ _ _ _ _ _ _⟩
    · intro os status
      rw [hit os]
      simp only []
      cases (exec_piped_command r.args_list r.piped_args_list os.pipe_ret os.fds0 os.fds1
        os.fork_ret os.fork_ret2 os.execvp_fails).2 <;> simp [LoopStep.after_launcher]

/-- Witness for C4 as amended: the line `q | ls`, with the literal `q`. -/
theorem exit_check_whole_line_witness :
    "q".toList ∈ exit_literals ∧ NUL ∉ "q | ls".toList ∧
    space_runs "q | ls".toList = "q".toList :: pipe_token :: ["ls".toList] ∧
    (before_pipe ["ls".toList]).length ≤ 9 ∧
    check_exit_inputs "q | ls".toList = 1 ∧
    "\n" ++ GOODBYE ++ "\n" ∉
      (shell_dispatch (some ("q | ls".toList ++ ['\n'])) ArgArray.blank ArgArray.blank).1 ∧
    (∀ os status,
      (shell_iteration os (some ("q | ls".toList ++ ['\n'])) ArgArray.blank
        ArgArray.blank).2 ≠ .exited status) ∧
    (pipe_token ∉ ["ls".toList] → ∃ b c, b.argv = ["q".toList] ∧ c.argv = ["ls".toList] ∧
      shell_dispatch (some ("q | ls".toList ++ ['\n'])) ArgArray.blank ArgArray.blank =
        ([PROMPT], .call_exec_piped_command b c) ∧
      ∀ os, shell_iteration os (some ("q | ls".toList ++ ['\n'])) ArgArray.blank
          ArgArray.blank =
        (.printf PROMPT ::
          (exec_piped_command b c os.pipe_ret os.fds0 os.fds1 os.fork_ret os.fork_ret2
            os.execvp_fails).1,
         LoopStep.after_launcher
          (exec_piped_command b c os.pipe_ret os.fds0 os.fds1 os.fork_ret os.fork_ret2
            os.execvp_fails).2)) :=
  have h := exit_check_whole_line "q | ls".toList "q".toList ["ls".toList] ArgArray.blank
    ArgArray.blank (by decide) (by decide) (by decide) (by decide)
  ⟨by decide, by decide, by decide, by decide, h.2.2.1, h.2.2.2.1, h.2.2.2.2.2.1,
    h.2.2.2.2.2.2.1⟩

/-- C5, what the code does: for a line of `n` spaces and nothing else (the empty
line when `n = 0`) `parse_command` does not fail: it returns 0 with an empty
vector, `args_list[0]` being `NULL`, and the loop body calls `exec_command` on
it: the process forks, the parent waits, and the child calls `execvp` on a
`NULL` program name and prints a diagnostic when that fails. -/
theorem blank_line_is_launched (n : Nat) (a p : ArgArray) :
    ∃ r, parse_command (List.replicate n ' ') a p 0 = .ok r ∧ r.ret = 0 ∧
      r.args_list.first = none ∧ r.args_list.argv = [] ∧
      shell_dispatch (some (List.replicate n ' ' ++ ['\n'])) a p =
        ([PROMPT], .call_exec_command r.args_list) ∧
      shell_iteration ⟨501, 0, 0, 3, 4, true⟩ (some (List.replicate n ' ' ++ ['\n'])) a p =
        ([.printf PROMPT, .fork 501, .wait], .at_prompt) ∧
      shell_iteration ⟨0, 0, 0, 3, 4, true⟩ (some (List.replicate n ' ' ++ ['\n'])) a p =
        ([.printf PROMPT, .fork 0, .execvp none [], .perror "cubsh (execve failed)"],
         .at_prompt) := by
  obtain ⟨r, hr, r1, r2, hargv, _, r5, _⟩ :=
    shape_no_pipe [] a p (fun _ h => absurd h (List.not_mem_nil _))
      (by unfold MAX_COMMAND_ARGS; decide)
  have hparse : parse_command (List.replicate n ' ') a p 0 = .ok r := by
    rw [parse_command_runs, space_runs_blank]
    exact hr
  have hfirst := first_of_argv_nil _ hargv
  have hd : shell_dispatch (some (List.replicate n ' ' ++ ['\n'])) a p =
      ([PROMPT], .call_exec_command r.args_list) := by
    rw [shell_dispatch_parsed _ a p (blank_no_nul n) (blank_not_exit n), hparse]
    simp only []
    rw [if_neg (by rw [r1]; decide), if_pos r2, r5]
  refine ⟨r, hparse, r1, hfirst, hargv, hd, ?_, ?_⟩
  · unfold shell_iteration
    rw [hd]
    rfl
  · unfold shell_iteration
    rw [hd]
    simp only [exec_command, hfirst, hargv]
    rfl

/-- C6, what the code does: when `execvp` fails in a child, the child prints the
error and the launcher returns to its caller; there is no exit.  This holds in
`exec_command` and in both children of `exec_piped_command`, and the child that
ran `nosuchprog` is back at the prompt of the read loop. -/
theorem failed_exec_child_returns (a p : ArgArray) :
    exec_command a 0 true =
      ([.fork 0, .execvp a.first a.argv, .perror "cubsh (execve failed)"], .returned) ∧
    exec_piped_command a p 0 3 4 0 0 true =
      ([.pipe 0 3 4, .fork 0, .close 3, .dup2 4 STDOUT_FILENO, .close 4,
        .execvp a.first a.argv, .perror "cubsh (execve failed - first command)"],
       .returned) ∧
    exec_piped_command a p 0 3 4 501 0 true =
      ([.pipe 0 3 4, .fork 501, .fork 0, .close 4, .dup2 3 STDIN_FILENO, .close 3,
        .execvp p.first p.argv, .perror "cubsh (execve failed - piped command)"],
       .returned) ∧
    shell_iteration ⟨0, 0, 0, 3, 4, true⟩ (some "nosuchprog\n".toList) ArgArray.blank
        ArgArray.blank =
      ([.printf PROMPT, .fork 0, .execvp (some "nosuchprog".toList) ["nosuchprog".toList],
        .perror "cubsh (execve failed)"], .at_prompt) := by
  refine ⟨by rfl, by rfl, by rfl, by rfl⟩

/-- C7, what the code does: when the pipe and the first `fork` succeed and the
second `fork` fails, the parent prints the error and returns at once: it makes
no `wait` call and closes neither end of the pipe. -/
theorem second_fork_failure_returns_at_once (a p : ArgArray) :
    exec_piped_command a p 0 3 4 501 (-1) false =
      ([.pipe 0 3 4, .fork 501, .fork (-1), .perror "cubsh (fork failed)"], .returned) ∧
    Event.wait ∉ (exec_piped_command a p 0 3 4 501 (-1) false).1 ∧
    Event.close 3 ∉ (exec_piped_command a p 0 3 4 501 (-1) false).1 ∧
    Event.close 4 ∉ (exec_piped_command a p 0 3 4 501 (-1) false).1 := by
  have h : exec_piped_command a p 0 3 4 501 (-1) false =
      ([.pipe 0 3 4, .fork 501, .fork (-1), .perror "cubsh (fork failed)"], .returned) := by
    rfl
  rw [h]
  exact ⟨rfl, by decide, by decide, by decide⟩

/-- C9: in `exec_piped_command`, when `pipe` and both `fork` calls succeed (the
shell having standard input and standard output open, and `pipe` delivering two
different descriptors that were not open): child A closes R, duplicates W onto
standard output, closes W and then calls `execvp` on the first vector, holding
the write end on standard output only and no read end; child B closes W,
duplicates R onto standard input, closes R and then calls `execvp` on the second
vector, holding the read end on standard input only and no write end; the
parent, after both forks, closes R and W, then waits exactly twice and returns,
holding neither end when it first waits. -/
theorem pipeline_descriptor_plumbing (a p : ArgArray) (opened : Int → Bool)
    (pipe_ret r w pidA pidB other : Int)
    (hpipe : 0 ≤ pipe_ret) (hA : 0 < pidA) (hB : 0 < pidB)
    (hin : opened STDIN_FILENO = true) (hout : opened STDOUT_FILENO = true)
    (hfr : opened r = false) (hfw : opened w = false) (hrw : r ≠ w) :
    exec_piped_command a p pipe_ret r w 0 other false =
      ([.pipe pipe_ret r w, .fork 0, .close r, .dup2 w STDOUT_FILENO, .close w,
        .execvp a.first a.argv], .replaced) ∧
    ((FdTable.initial opened).after
        [.pipe pipe_ret r w, .fork 0, .close r, .dup2 w STDOUT_FILENO, .close w])
      STDOUT_FILENO = some .pipe_write ∧
    (∀ fd, ((FdTable.initial opened).after
        [.pipe pipe_ret r w, .fork 0, .close r, .dup2 w STDOUT_FILENO, .close w]) fd =
          some .pipe_write → fd = STDOUT_FILENO) ∧
    (∀ fd, ((FdTable.initial opened).after
        [.pipe pipe_ret r w, .fork 0, .close r, .dup2 w STDOUT_FILENO, .close w]) fd ≠
          some .pipe_read) ∧
    exec_piped_command a p pipe_ret r w pidA 0 false =
      ([.pipe pipe_ret r w, .fork pidA, .fork 0, .close w, .dup2 r STDIN_FILENO, .close r,
        .execvp p.first p.argv], .replaced) ∧
    ((FdTable.initial opened).after
        [.pipe pipe_ret r w, .fork pidA, .fork 0, .close w, .dup2 r STDIN_FILENO, .close r])
      STDIN_FILENO = some .pipe_read ∧
    (∀ fd, ((FdTable.initial opened).after
        [.pipe pipe_ret r w, .fork pidA, .fork 0, .close w, .dup2 r STDIN_FILENO, .close r])
          fd = some .pipe_read → fd = STDIN_FILENO) ∧
    (∀ fd, ((FdTable.initial opened).after
        [.pipe pipe_ret r w, .fork pidA, .fork 0, .close w, .dup2 r STDIN_FILENO, .close r])
          fd ≠ some .pipe_write) ∧
    exec_piped_command a p pipe_ret r w pidA pidB false =
      ([.pipe pipe_ret r w, .fork pidA, .fork pidB, .close r, .close w, .wait, .wait],
       .returned) ∧
    (∀ fd, ((FdTable.initial opened).after
        [.pipe pipe_ret r w, .fork pidA, .fork pidB, .close r, .close w]) fd ≠
          some .pipe_read ∧
      ((FdTable.initial opened).after
        [.pipe pipe_ret r w, .fork pidA, .fork pidB, .close r, .close w]) fd ≠
          some .pipe_write) := by
  have hw : w ≠ STDOUT_FILENO := by
    intro e
    rw [e, hout] at hfw
    cases hfw
  have hr : r ≠ STDIN_FILENO := by
    intro e
    rw [e, hin] at hfr
    cases hfr
  have hp : ¬ pipe_ret < 0 := by omega
  have hA1 : ¬ pidA < 0 := by omega
  have hA2 : ¬ pidA = 0 := by omega
  have hB1 : ¬ pidB < 0 := by omega
  have hB2 : ¬ pidB = 0 := by omega
  have hinit : ∀ fd d, FdTable.initial opened fd = some d → d ≠ .pipe_read ∧ d ≠ .pipe_write := by
    intro fd d h
    unfold FdTable.initial at h
    by_cases ho : opened fd = true
    · rw [if_pos ho] at h
      cases h
      exact ⟨by simp, by simp⟩
    · rw [if_neg ho] at h
      cases h
  have hTA : (FdTable.initial opened).after
      [.pipe pipe_ret r w, .fork 0, .close r, .dup2 w STDOUT_FILENO, .close w] =
      Function.update (Function.update (Function.update (Function.update (Function.update
        (FdTable.initial opened) r (some .pipe_read)) w (some .pipe_write)) r none)
        STDOUT_FILENO (some .pipe_write)) w none := by
    simp [FdTable.after, FdTable.step, hp, Function.update_apply, Ne.symm hrw]
  have hTB : (FdTable.initial opened).after
      [.pipe pipe_ret r w, .fork pidA, .fork 0, .close w, .dup2 r STDIN_FILENO, .close r] =
      Function.update (Function.update (Function.update (Function.update (Function.update
        (FdTable.initial opened) r (some .pipe_read)) w (some .pipe_write)) w none)
        STDIN_FILENO (some .pipe_read)) r none := by
    simp [FdTable.after, FdTable.step, hp, Function.update_apply, hrw]
  have hTP : (FdTable.initial opened).after
      [.pipe pipe_ret r w, .fork pidA, .fork pidB, .close r, .close w] =
      Function.update (Function.update (Function.update (Function.update
        (FdTable.initial opened) r (some .pipe_read)) w (some .pipe_write)) r none) w none := by
    simp [FdTable.after, FdTable.step, hp]
  rw [hTA, hTB, hTP]
  refine ⟨?_, ?_, ?_, ?_, ?_, ?_, ?_, ?_, ?_, ?_⟩
  · simp [exec_piped_command, hp]
  · simp [Function.update_apply, Ne.symm hw]
  · intro fd h
    simp only [Function.update_apply] at h
    by_contra hne
    split_ifs at h
    all_goals first
      | contradiction
      | cases h
      | exact (hinit fd _ h).2 rfl
  · intro fd h
    simp only [Function.update_apply] at h
    split_ifs at h
    all_goals first
      | contradiction
      | cases h
      | exact (hinit fd _ h).1 rfl
  · simp [exec_piped_command, hp, hA1, hA2]
  · simp [Function.update_apply, Ne.symm hr]
  · intro fd h
    simp only [Function.update_apply] at h
    by_contra hne
    split_ifs at h
    all_goals first
      | contradiction
      | cases h
      | exact (hinit fd _ h).1 rfl
  · intro fd h
    simp only [Function.update_apply] at h
    split_ifs at h
    all_goals first
      | contradiction
      | cases h
      | exact (hinit fd _ h).2 rfl
  · simp [exec_piped_command, hp, hA1, hA2, hB1, hB2]
  · intro fd
    constructor
    · intro h
      simp only [Function.update_apply] at h
      split_ifs at h
      all_goals first
        | contradiction
        | cases h
        | exact (hinit fd _ h).1 rfl
    · intro h
      simp only [Function.update_apply] at h
      split_ifs at h
      all_goals first
        | contradiction
        | cases h
        | exact (hinit fd _ h).2 rfl

/-- Witness for C9: the shell has descriptors 0, 1 and 2 open, the pipe gets
descriptors 3 and 4, and the children get the process ids 501 and 502. -/
theorem pipeline_descriptor_plumbing_witness :
    (0 : Int) ≤ 0 ∧ (0 : Int) < 501 ∧ (0 : Int) < 502 ∧ (3 : Int) ≠ 4 ∧
    exec_piped_command ArgArray.blank ArgArray.blank 0 3 4 0 0 false =
      ([.pipe 0 3 4, .fork 0, .close 3, .dup2 4 STDOUT_FILENO, .close 4,
        .execvp ArgArray.blank.first ArgArray.blank.argv], .replaced) ∧
    ((FdTable.initial (fun fd => decide (0 ≤ fd ∧ fd ≤ 2))).after
        [.pipe 0 3 4, .fork 0, .close 3, .dup2 4 STDOUT_FILENO, .close 4])
      STDOUT_FILENO = some .pipe_write ∧
    exec_piped_command ArgArray.blank ArgArray.blank 0 3 4 501 0 false =
      ([.pipe 0 3 4, .fork 501, .fork 0, .close 4, .dup2 3 STDIN_FILENO, .close 3,
        .execvp ArgArray.blank.first ArgArray.blank.argv], .replaced) ∧
    ((FdTable.initial (fun fd => decide (0 ≤ fd ∧ fd ≤ 2))).after
        [.pipe 0 3 4, .fork 501, .fork 0, .close 4, .dup2 3 STDIN_FILENO, .close 3])
      STDIN_FILENO = some .pipe_read ∧
    exec_piped_command ArgArray.blank ArgArray.blank 0 3 4 501 502 false =
      ([.pipe 0 3 4, .fork 501, .fork 502, .close 3, .close 4, .wait, .wait], .returned) :=
  have h := pipeline_descriptor_plumbing ArgArray.blank ArgArray.blank
    (fun fd => decide (0 ≤ fd ∧ fd ≤ 2)) 0 3 4 501 502 0
    (by decide) (by decide) (by decide) (by decide) (by decide) (by decide) (by decide)
    (by decide)
  ⟨by decide, by decide, by decide, by decide, h.1, h.2.1, h.2.2.2.2.1, h.2.2.2.2.2.1,
    h.2.2.2.2.2.2.2.2.1⟩

end Cubsh
